import Mathlib

/-!
Verification of the ugrep output-coordination and interactive-query cores
against their specification.  The definitions below are shallow embeddings
of the C++ code in `output.hpp` (Output, Output::Sync) and `query.cpp`
(Query), over lists of byte values (naturals < 256) and explicit state
records.  Machine integers (`size_t`, `int`) are modelled as `Nat`/`Int`
with explicit `% 2^64` where wrap-around can matter.
-/

namespace Ugrep

/-! ### Byte-level emitters of `Output` (output.hpp) -/

/-- The character table lookup `"0123456789abcdef"[d]` used by `Output::hex`. -/
def hexDigitChar (d : ℕ) : ℕ :=
  if d < 10 then 48 + d else 87 + d

/-- Fuelled helper for `hexDigits`; the fuel only drives structural
recursion and `hexDigits` supplies enough of it (`i` itself, as
`i / 16 < i` for `i ≥ 16`). -/
def hexDigitsF : ℕ → ℕ → List ℕ
  | 0, i => [hexDigitChar (i % 16)]
  | f + 1, i =>
    if i < 16 then [hexDigitChar i]
    else hexDigitsF f (i / 16) ++ [hexDigitChar (i % 16)]

/-- Big-endian hex digits produced by the do-while loop of `Output::hex`:
`do tmp[--k] = "0123456789abcdef"[i & 0xf]; while ((i >>= 4) > 0);`.
At least one digit is always produced. -/
def hexDigits (i : ℕ) : List ℕ := hexDigitsF i i

/-- Bytes emitted by `Output::hex(i, w)`: zero-padding `'0'` characters up to
width `w` (the `while (w-- > n) chr('0')` loop) followed by the digits. -/
def hexBytes (i w : ℕ) : List ℕ :=
  List.replicate (w - (hexDigits i).length) 48 ++ hexDigits i

/-- The value of a byte read through a (signed) `char`, as compared by
`*s >= 0x20 && *s <= 0x7e` in `Output::uri`. -/
def sByte (b : ℕ) : ℤ :=
  if b < 128 then (b : ℤ) else (b : ℤ) - 256

/-- Bytes emitted by `Output::uri` for the NUL-free byte list `s`
(the loop runs until the terminating NUL): a byte passing the signed-char
test `*s >= 0x20 && *s <= 0x7e && *s != '%' && *s != ';'` is emitted by
`chr(*s)`, any other byte as `chr('%'); hex(byte, 2)`. -/
def uriBytes : List ℕ → List ℕ
  | [] => []
  | b :: s =>
    if 0x20 ≤ sByte b ∧ sByte b ≤ 0x7e ∧ b ≠ 37 ∧ b ≠ 59 then
      b :: uriBytes s
    else
      37 :: (hexBytes b 2 ++ uriBytes s)

/-- The per-byte encoding described by the specification of the URI quoter:
bytes in `0x20..0x7E` other than `%` and `;` pass through, every other byte
becomes `%` followed by exactly two hex digits of the byte's value. -/
def uriClaimEnc (b : ℕ) : List ℕ :=
  if 0x20 ≤ b ∧ b ≤ 0x7e ∧ b ≠ 37 ∧ b ≠ 59 then [b]
  else [37, hexDigitChar (b / 16), hexDigitChar (b % 16)]

/-! ### UTF-8 limited emit `Output::utf8strn` (output.hpp) -/

/-- The continuation-byte test `(*s & 0xc0) == 0x80` of `Output::utf8strn`. -/
def isCont (b : ℕ) : Bool := b &&& 0xc0 == 0x80

/-- The inner loop of `Output::utf8strn`:
`while ((*++s & 0xc0) == 0x80 && n > 0) --n;`.
The pointer `s` is modelled as the suffix `cur` of the input starting at its
current position; the result is the number of `--n` decrements (so the
pointer ends `result + 1` bytes further).  A read one past the remaining
span (which C performs before the short-circuited `n > 0` test fails) is
modelled by `getD _ 0`; its value never affects the result because the
`n` guard fails in exactly those cases. -/
def contSteps : List ℕ → ℕ → ℕ
  | _, 0 => 0
  | cur, n + 1 =>
    if isCont (cur.getD 1 0) then contSteps cur.tail n + 1 else 0

/-- The outer loop of `Output::utf8strn`
(`while (n-- > 0 && k-- > 0) while (...) --n;`), returning the total pointer
advance `s - t`: per iteration one lead byte plus the continuation bytes
consumed by `contSteps`. -/
def utf8Loop : List ℕ → ℕ → ℕ → ℕ
  | cur, n + 1, k + 1 =>
    (1 + contSteps cur n) +
      utf8Loop (cur.drop (1 + contSteps cur n)) (n - contSteps cur n) k
  | _, _, _ => 0

/-- `Output::utf8strn(s, n, k)` emits `str(t, s - t)`, i.e. the first
`utf8strnLen s n k` bytes of `s`. -/
def utf8strnLen (bytes : List ℕ) (n k : ℕ) : ℕ := utf8Loop bytes n k

/-- Helper for structural UTF-8 validity: `utf8Run c l` checks that `l`
starts with `c` continuation bytes and continues as a sequence of UTF-8
units, each a lead byte (1-byte `< 0x80`, 2-byte `0xC0..0xDF`, 3-byte
`0xE0..0xEF`, 4-byte `0xF0..0xF7`) followed by the required number of
continuation bytes. -/
def utf8Run : ℕ → List ℕ → Bool
  | 0, [] => true
  | 0, b :: r =>
    if b < 0x80 then utf8Run 0 r
    else if 0xc0 ≤ b ∧ b < 0xe0 then utf8Run 1 r
    else if 0xe0 ≤ b ∧ b < 0xf0 then utf8Run 2 r
    else if 0xf0 ≤ b ∧ b < 0xf8 then utf8Run 3 r
    else false
  | _ + 1, [] => false
  | c + 1, b :: r => isCont b && utf8Run c r

/-- Structural UTF-8 validity of a byte list. -/
def utf8ValidB (l : List ℕ) : Bool := utf8Run 0 l

/-- Number of UTF-8 code points in a byte list: one per non-continuation
byte (for structurally valid lists this counts the lead bytes). -/
def cpCount : List ℕ → ℕ
  | [] => 0
  | b :: l => (if isCont b then 0 else 1) + cpCount l

/-! ### `Query::is_filename` (query.cpp) -/

/-- The C locale `isalpha` test applied to a byte by `Query::is_filename`. -/
def isAlpha (c : ℕ) : Bool :=
  decide ((65 ≤ c ∧ c ≤ 90) ∨ (97 ≤ c ∧ c ≤ 122))

/-- A scan loop `while (pos < end && line.at(pos) != t) ++pos` of
`Query::is_filename`, with the position modelled as the remaining suffix:
returns the bytes passed over and the suffix from the found byte
(empty when the scan ran to the end of the line). -/
def scanTo (t : ℕ) : List ℕ → List ℕ × List ℕ
  | [] => ([], [])
  | b :: r =>
    if b = t then ([], b :: r)
    else (b :: (scanTo t r).1, (scanTo t r).2)

/-- The inner loop `while (++pos < end && !isalpha(line.at(pos))) continue;`
followed by `++pos` in the files-with-matches branch of
`Query::is_filename`: from the suffix after the ESC byte, skip to the first
alphabetic byte and past it. -/
def skipToAlphaS : List ℕ → List ℕ
  | [] => []
  | a :: v => if isAlpha a then v else skipToAlphaS v

/-- The outer CSI-skipping loop of the files-with-matches branch of
`Query::is_filename` (`while (pos < end) { if (line.at(pos) != 033) break;
... }`), fuelled; `Query.isFilename` supplies fuel `line.length + 1`, which
is enough since every iteration shortens the suffix. -/
def skipCSIsF : ℕ → List ℕ → List ℕ
  | 0, l => l
  | f + 1, l =>
    match l with
    | [] => []
    | b :: r => if b = 27 then skipCSIsF f (skipToAlphaS r) else b :: r

/-- The filename extracted by `Query::is_filename`, or `none` at any of the
early `return false` exits before the extraction.  In the non-FWM branch,
`scanTo 0 line.tail` is the scan from position 1 for the second NUL
(`s1 = []` when the scan ran off the end), `s1.tail = []` is the
`++pos >= end` check, and the second scan from past the second NUL yields
the candidate name and the `pos == start || pos >= end` checks. -/
def isFilenameExtract (fwm : Bool) (line : List ℕ) : Option (List ℕ) :=
  if fwm then
    match skipCSIsF (line.length + 1) line with
    | [] => none
    | b :: r => some ((scanTo 27 (b :: r)).1)
  else
    if line.length < 4 then none
    else if line.getD 0 1 ≠ 0 then none
    else
      let s1 := (scanTo 0 line.tail).2
      if s1 = [] then none
      else if s1.tail = [] then none
      else
        let nm := (scanTo 0 s1.tail).1
        if (scanTo 0 s1.tail).2 = [] then none
        else if nm = [] then none
        else some nm

/-- `Query::is_filename(line, filename)`: returns the boolean result and
the (possibly updated) stored previous filename.  The trailing comparison
`extract == filename` and `filename.swap(extract)` are shared by both
modes. -/
def isFilename (fwm : Bool) (line prev : List ℕ) : Bool × List ℕ :=
  match isFilenameExtract fwm line with
  | none => (false, prev)
  | some ext => if ext = prev then (false, prev) else (true, ext)

/-- The NUL-triplet framing condition exactly as the claim states it: the
line begins with NUL, contains a second NUL after at least one byte
(`mid ≠ []`), and a third NUL follows after a non-empty filename. -/
def nulMarkerOrigP (line : List ℕ) : Prop :=
  ∃ mid name tail, line = 0 :: (mid ++ 0 :: (name ++ 0 :: tail)) ∧
    (∀ x ∈ mid, x ≠ 0) ∧ (∀ x ∈ name, x ≠ 0) ∧ mid ≠ [] ∧ name ≠ []

/-! ### `Query` viewport state: `fetch`, `load_line`, `save_line` (query.cpp) -/

/-- Modelled from the spec: the fixed capacity of the edit buffer
(`QUERY_MAX_LEN`, defined in query.hpp which is not among the provided
sources; the spec only says the buffer is fixed-capacity, and no claim here
depends on its exact value). -/
def QUERY_MAX_LEN : ℕ := 1024

/-- The `static_cast<size_t>(select_)` conversion of the `int` selection
index to `size_t` (64-bit, two's complement). -/
def toSizeT (i : ℤ) : ℕ := (i % (2 ^ 64)).toNat

/-- Interactive query mode (`Query::Mode`). -/
inductive QMode where
  | QUERY
  | LIST
  | EDIT
  | HELP
deriving DecidableEq

/-- The `Query` state components touched by `fetch`, `load_line` and
`save_line`: the result-line vector `view_`, the parallel selection vector
`selected_`, the row count `rows_`, the selection index `select_`, the
select-all flag, the edit-line buffer `line_` and the `append_` flag.
Fields not involved in these operations are omitted. -/
structure QueryState where
  mode : QMode
  view : List (List ℕ)
  selected : List Bool
  rows : ℕ
  select : ℤ
  selectAll : Bool
  line : List ℕ
  app : Bool

/-- One row-producing step of `Query::fetch` (query.cpp:1436-1472): grow
`view_`/`selected_` on demand when `rows_ >= view_.size()`, assign or
append the chunk to `view_[rows_]`, set `selected_[rows_]`, and advance
`rows_` when the row is complete. -/
def fetchRow (st : QueryState) (chunk : List ℕ) (incomplete : Bool) : QueryState :=
  let view1 := if st.view.length ≤ st.rows then st.view ++ [[]] else st.view
  let sel1 := if st.view.length ≤ st.rows then st.selected ++ [st.selectAll] else st.selected
  let view2 :=
    if st.app then view1.set st.rows (view1.getD st.rows [] ++ chunk)
    else view1.set st.rows chunk
  { st with
    view := view2
    selected := sel1.set st.rows st.selectAll
    rows := if incomplete then st.rows else st.rows + 1
    app := incomplete }

/-- `Query::load_line`: in EDIT mode, load `view_[select_]` into the edit
buffer when `static_cast<size_t>(select_) < view_.size()`, otherwise clear
the buffer and `view_.emplace_back(line_)` — growing `view_` without
growing `selected_`. -/
def loadLine (st : QueryState) : QueryState :=
  if st.mode = QMode.EDIT then
    if toSizeT st.select < st.view.length then
      { st with line := (st.view.getD (toSizeT st.select) []).take (QUERY_MAX_LEN - 1) }
    else
      { st with line := [], view := st.view ++ [[]] }
  else st

/-- `Query::save_line`: in EDIT mode, `view_.emplace_back(line_)` when
`static_cast<size_t>(select_) >= view_.size()` (again without growing
`selected_`), otherwise assign `view_[select_]`. -/
def saveLine (st : QueryState) : QueryState :=
  if st.mode = QMode.EDIT then
    if st.view.length ≤ toSizeT st.select then { st with view := st.view ++ [st.line] }
    else { st with view := st.view.set (toSizeT st.select) st.line }
  else st

/-- An EDIT-mode state with an empty viewport reached e.g. after entering
EDIT mode with a selection active and no rows loaded; pressing Enter on the
last row (`VKey::LF` with `select_ + 1 == rows_`) also drives `load_line`
into its `emplace_back` branch. -/
def editBugState : QueryState :=
  { mode := QMode.EDIT, view := [], selected := [], rows := 0, select := 0,
    selectAll := false, line := [], app := false }

/-! ### `Output` buffering, flushing and cancellation (output.hpp) -/

/-- `Output::SIZE`: size of each buffer in the buffers container. -/
def SIZE : ℕ := 16384

/-- Modelled from the spec: `Output::STOP = UNDEFINED_SIZE`, the `size_t`
sentinel stored into `Sync::last` to cancel output (`ugrep.hpp`, which
defines `UNDEFINED_SIZE`, is not among the provided sources; the spec only
says a sentinel value of `last` encodes a global cancel, and the maximal
`size_t` value is used here). -/
def STOP : ℕ := 2 ^ 64 - 1

/-- The `int` bitmask `~HOLD` applied by `Output::launch`
(`mode_ &= ~HOLD` with `HOLD = 2`, on a 32-bit `int`). -/
def NOT_HOLD : ℕ := 2 ^ 32 - 3

/-- The state of one `Output` writer together with its view of the sink
and of the attached synchronizer.  `chain` holds the full buffers strictly
before the cursor (each of `SIZE` bytes in reachable states), `cur` the
bytes written into the current buffer, `spares` the preallocated buffers
after the cursor.  The sink is an oracle: `fwRet i` is the value the i-th
upcoming `fwrite` call returns and `ffRet i` whether the i-th upcoming
`fflush` succeeds; `sinkOut` accumulates the bytes the sink accepted.
`syncLast` is the attached `Sync`'s `last` (`none` when `sync == NULL`)
and `acq` abstracts `sync == NULL || sync->try_acquire(lock_)` in
`Output::next`.  `mode` is the `FLUSH = 1` / `HOLD = 2` / `BINARY = 4`
bitmask `mode_`. -/
structure OutState where
  chain : List (List ℕ)
  cur : List ℕ
  spares : ℕ
  eof : Bool
  mode : ℕ
  syncLast : Option ℕ
  acq : Bool
  fwRet : ℕ → ℕ
  ffRet : ℕ → Bool
  sinkOut : List ℕ

/-- All bytes currently buffered in the chain. -/
def totalBuf (st : OutState) : List ℕ := st.chain.flatten ++ st.cur

/-- The loop of `Output::flush` over the full buffers:
`fwrite(i->data, 1, SIZE, file)` per buffer, breaking (with a cancel) on a
short write (`nwritten < SIZE`).  Returns the bytes the sink accepted, the
number of `fwrite` calls made, and whether a short write occurred. -/
def writeChunks (fw : ℕ → ℕ) : List (List ℕ) → List ℕ × ℕ × Bool
  | [] => ([], 0, false)
  | c :: cs =>
    if fw 0 < SIZE then (c.take (fw 0), 1, true)
    else
      (c ++ (writeChunks (fun i => fw (i + 1)) cs).1,
       (writeChunks (fun i => fw (i + 1)) cs).2.1 + 1,
       (writeChunks (fun i => fw (i + 1)) cs).2.2)

/-- Result of the writing part of `Output::flush`:  bytes accepted by the
sink, whether any write or the final `fflush` failed (i.e. `cancel()` was
called), and how many `fwrite`/`fflush` calls were consumed. -/
structure FlushRes where
  bytes : List ℕ
  failed : Bool
  fwUsed : ℕ
  ffUsed : ℕ

/-- The body of `Output::flush` in the default `flag_width == 0` path
(`flush_truncated_lines`, the `--width` path, lives in `output.cpp` which
is not among the provided sources): write every full buffer, then the
partial tail (`num = cur_ - buf_->data`, skipped when zero), then
`fflush`; the first failure calls `cancel()` and stops. -/
def flushCore (chain : List (List ℕ)) (cur : List ℕ) (fw : ℕ → ℕ)
    (ff : ℕ → Bool) : FlushRes :=
  let w := writeChunks fw chain
  if w.2.2 then ⟨w.1, true, w.2.1, 0⟩
  else if cur = [] then
    if ff 0 then ⟨w.1, false, w.2.1, 1⟩ else ⟨w.1, true, w.2.1, 1⟩
  else if fw w.2.1 < cur.length then
    ⟨w.1 ++ cur.take (fw w.2.1), true, w.2.1 + 1, 0⟩
  else if ff 0 then ⟨w.1 ++ cur, false, w.2.1 + 1, 1⟩
  else ⟨w.1 ++ cur, true, w.2.1 + 1, 1⟩

/-- `Output::flush`: does nothing when the chain cursor is at the very
start; otherwise, unless `eof` is already set, writes the buffers to the
sink (cancelling on failure, which sets `eof` and the attached `Sync.last`
to `STOP`), and in every case resets the cursor to the start of the first
buffer. -/
def flushOut (st : OutState) : OutState :=
  if st.chain = [] ∧ st.cur = [] then st
  else if st.eof then
    { st with chain := [], cur := [], spares := st.spares + st.chain.length }
  else
    { st with
      sinkOut := st.sinkOut ++ (flushCore st.chain st.cur st.fwRet st.ffRet).bytes
      eof := (flushCore st.chain st.cur st.fwRet st.ffRet).failed
      syncLast :=
        if (flushCore st.chain st.cur st.fwRet st.ffRet).failed then
          st.syncLast.map fun _ => STOP
        else st.syncLast
      fwRet := fun i => st.fwRet (i + (flushCore st.chain st.cur st.fwRet st.ffRet).fwUsed)
      ffRet := fun i => st.ffRet (i + (flushCore st.chain st.cur st.fwRet st.ffRet).ffUsed)
      chain := []
      cur := []
      spares := st.spares + st.chain.length }

/-- `Output::next`: flush when not holding and the synchronizer lock is
available, otherwise advance to the next buffer in the chain, growing it
if needed (`spares = 0`). -/
def nextBuf (st : OutState) : OutState :=
  if st.mode &&& 2 = 0 ∧ st.acq = true then flushOut st
  else { st with chain := st.chain ++ [st.cur], cur := [], spares := st.spares - 1 }

/-- `Output::chr`: advance to the next buffer when the current one is full,
then store the byte. -/
def chrOp (st : OutState) (b : ℕ) : OutState :=
  if SIZE ≤ st.cur.length then
    { nextBuf st with cur := (nextBuf st).cur ++ [b] }
  else { st with cur := st.cur ++ [b] }

/-- The loop of `Output::str(s, n)`
(`while (cur_ + n >= buf_->data + SIZE) { memcpy k bytes; next(); }`),
fuelled; `strOp` supplies fuel `st.cur.length + s.length + 2`, which is
enough because after every iteration the current buffer is empty. -/
def strOpF : ℕ → OutState → List ℕ → OutState
  | 0, st, _ => st
  | f + 1, st, s =>
    if SIZE ≤ st.cur.length + s.length then
      strOpF f (nextBuf { st with cur := st.cur ++ s.take (SIZE - st.cur.length) })
        (s.drop (SIZE - st.cur.length))
    else { st with cur := st.cur ++ s }

/-- `Output::str(s, n)`. -/
def strOp (st : OutState) (s : List ℕ) : OutState :=
  strOpF (st.cur.length + s.length + 2) st s

/-- `Output::check_flush`: flush only when `mode_ == FLUSH` exactly. -/
def checkFlush (st : OutState) : OutState :=
  if st.mode = 1 then flushOut st else st

/-- `Output::nl` on POSIX: emit the line feed, then `check_flush()`. -/
def nlOp (st : OutState) : OutState := checkFlush (chrOp st 10)

/-- `Output::hold`: set the `HOLD` mode bit. -/
def holdOp (st : OutState) : OutState := { st with mode := st.mode ||| 2 }

/-- `Output::launch`: when holding, clear the `HOLD` bit and
`check_flush()`. -/
def launchOp (st : OutState) : OutState :=
  if st.mode &&& 2 ≠ 0 then checkFlush { st with mode := st.mode &&& NOT_HOLD }
  else st

/-- `Output::discard`: reset the chain cursor without writing. -/
def discardOp (st : OutState) : OutState :=
  { st with chain := [], cur := [], spares := st.spares + st.chain.length }

/-- The emit operations of the `Output` facade used after a failure. -/
inductive EmitOp where
  | chr (b : ℕ)
  | str (s : List ℕ)
  | nl
  | flush
  | hold
  | launch
  | discard

/-- Apply one emit operation. -/
def applyOp (st : OutState) : EmitOp → OutState
  | .chr b => chrOp st b
  | .str s => strOp st s
  | .nl => nlOp st
  | .flush => flushOut st
  | .hold => holdOp st
  | .launch => launchOp st
  | .discard => discardOp st

/-- Run a sequence of emit operations. -/
def runOut (st : OutState) (ops : List EmitOp) : OutState :=
  ops.foldl applyOp st

/-- The sink reports a failure during this flush: there is data to flush
and either some full-buffer `fwrite` would return short, or they all
succeed and the tail `fwrite` returns short, or all writes succeed and
`fflush` fails. -/
def flushFails (st : OutState) : Prop :=
  (st.chain ≠ [] ∨ st.cur ≠ []) ∧
  ((∃ i < st.chain.length, st.fwRet i < SIZE) ∨
   ((∀ i < st.chain.length, SIZE ≤ st.fwRet i) ∧ st.cur ≠ [] ∧
     st.fwRet st.chain.length < st.cur.length) ∨
   ((∀ i < st.chain.length, SIZE ≤ st.fwRet i) ∧
     (st.cur = [] ∨ ¬ st.fwRet st.chain.length < st.cur.length) ∧
     st.ffRet 0 = false))

/-- A writer in `HOLD`-only mode (not line-buffered) with one buffered
byte and a perfectly healthy sink. -/
def holdOnlyState : OutState :=
  { chain := [], cur := [65], spares := 0, eof := false, mode := 2,
    syncLast := none, acq := true, fwRet := fun _ => SIZE,
    ffRet := fun _ => true, sinkOut := [] }

/-- A writer whose sink reported a short write: `eof` is set, one byte is
still buffered. -/
def eofState : OutState :=
  { chain := [], cur := [66], spares := 0, eof := true, mode := 0,
    syncLast := some STOP, acq := true, fwRet := fun _ => SIZE,
    ffRet := fun _ => true, sinkOut := [65] }

/-- A writer about to hit a short write: the sink will accept 0 bytes of
the 1-byte tail. -/
def shortWriteState : OutState :=
  { chain := [], cur := [65], spares := 0, eof := false, mode := 0,
    syncLast := some 0, acq := true, fwRet := fun _ => 0,
    ffRet := fun _ => true, sinkOut := [] }

/-! ### `Output::Sync` in ORDERED mode (output.hpp) -/

/-- `reflex::Bits::rshift()` on the `completed` bitset (an external
collaborator of this code, modelled as the set of set bit positions):
shift every bit right by one, dropping bit 0. -/
def bitsRshift (C : Finset ℕ) : Finset ℕ :=
  (C.erase 0).image (fun x => x - 1)

/-- `size_t` subtraction `a - b` (both operands below `2^64`), as computed
by `completed.insert(slot - last)`. -/
def szSub (a b : ℕ) : ℕ := (a + (2 ^ 64 - b)) % 2 ^ 64

/-- The do-while loop of `Output::Sync::finish` in ORDERED mode:
`do { ++last; completed.rshift(); } while (completed[0]);`.
`last` is a `size_t`, hence the explicit wrap-around. -/
def advanceLoop (last : ℕ) (C : Finset ℕ) : ℕ × Finset ℕ :=
  if h : 0 ∈ bitsRshift C then
    advanceLoop ((last + 1) % 2 ^ 64) (bitsRshift C)
  else ((last + 1) % 2 ^ 64, bitsRshift C)
termination_by C.sup id
decreasing_by
  have h1 : (1 : ℕ) ∈ C := by
    obtain ⟨x, hx, hx0⟩ := Finset.mem_image.mp h
    have hxne := (Finset.mem_erase.mp hx).1
    have hxC := (Finset.mem_erase.mp hx).2
    have hx1 : x = 1 := by omega
    rwa [← hx1]
  have hsup : id 1 ≤ C.sup id := Finset.le_sup h1
  simp only [id] at hsup
  refine (Finset.sup_lt_iff (by rw [show (⊥ : ℕ) = 0 from rfl]; omega)).mpr ?_
  intro b hb
  obtain ⟨x, hx, hxb⟩ := Finset.mem_image.mp hb
  have hle : id x ≤ C.sup id := Finset.le_sup (Finset.mem_erase.mp hx).2
  have hxne := (Finset.mem_erase.mp hx).1
  simp only [id] at hle ⊢
  omega

/-- The least positive bit offset not set in `C`: how far one call of the
`finish` advance loop moves `last` (it collapses the contiguous run of
already-finished later slots). -/
def kOf (C : Finset ℕ) : ℕ :=
  Nat.find (show ∃ k, 1 ≤ k ∧ k ∉ C from
    ⟨C.sup id + 1, by
      refine ⟨by omega, fun hmem => ?_⟩
      have hle : id (C.sup id + 1) ≤ C.sup id := Finset.le_sup hmem
      simp only [id] at hle
      omega⟩)

/-- The bitset after `k` right shifts: every set bit at position `≥ k`
moves down by `k`. -/
def shiftK (C : Finset ℕ) (k : ℕ) : Finset ℕ :=
  (C.filter (fun x => k ≤ x)).image (fun x => x - k)

/-- The ORDERED synchronizer state that `finish`/`cancel` mutate: the
atomic `last` and the `completed` bitset of `Output::Sync`. -/
structure SyncSt where
  last : ℕ
  completed : Finset ℕ
deriving DecidableEq

/-- Initial synchronizer state (`next = 0`, `last = 0`, empty bitset). -/
def sync0 : SyncSt := { last := 0, completed := ∅ }

/-- `Output::Sync::cancelled()`. -/
def syncCancelled (st : SyncSt) : Prop := st.last = STOP

/-- Whether `Output::Sync::acquire` in ORDERED mode enters its wait loop:
`if (!lock->owns_lock()) { lock(); while (last != STOP && slot != last)
turn.wait(*lock); }`. -/
def acquireWaits (st : SyncSt) (owns : Bool) (slot : ℕ) : Bool :=
  decide (owns = false ∧ st.last ≠ STOP ∧ slot ≠ st.last)

/-- `Output::Sync::finish` in ORDERED mode: returns the new state, the new
lock ownership of the caller, and whether `turn.notify_all()` was called.
When cancelled, release a held lock and broadcast; when it is this slot's
turn, run the advance loop, unlock and broadcast; otherwise record the
completion bit `slot - last` without waking anyone. -/
def finishFull (st : SyncSt) (owns : Bool) (slot : ℕ) : SyncSt × Bool × Bool :=
  if st.last = STOP then (st, false, true)
  else if slot = st.last then
    ({ last := (advanceLoop st.last st.completed).1,
       completed := (advanceLoop st.last st.completed).2 }, false, true)
  else
    ({ st with completed := insert (szSub slot st.last) st.completed }, owns, false)

/-- The synchronizer calls whose effect on `(last, completed)` the claims
quantify over. -/
inductive SyncOp where
  | acquire (slot : ℕ)
  | finish (slot : ℕ)
  | cancel

/-- The slot argument carried by an operation (0 for `cancel`). -/
def opSlot : SyncOp → ℕ
  | .acquire s => s
  | .finish s => s
  | .cancel => 0

/-- State effect of one synchronizer call (ORDERED mode): `acquire` does
not modify `(last, completed)`, `cancel` sets `last = STOP`, `finish` as
in `finishFull`. -/
def syncStep (st : SyncSt) : SyncOp → SyncSt
  | .acquire _ => st
  | .cancel => { st with last := STOP }
  | .finish slot => (finishFull st false slot).1

/-- Run a sequence of synchronizer calls. -/
def syncRun (st : SyncSt) (ops : List SyncOp) : SyncSt :=
  ops.foldl syncStep st

/-- Inductive invariant after `t` operations: bit 0 of `completed` is
clear (the bitset only records slots strictly greater than `last`), at
most `t` bits are set, and `last` is the sentinel or at most `t*t + t`
(so it stays far from `size_t` wrap-around for any feasible trace). -/
def SyncInv (t : ℕ) (st : SyncSt) : Prop :=
  0 ∉ st.completed ∧ st.completed.card ≤ t ∧
  (st.last = STOP ∨ st.last ≤ t * t + t)

/-! ### `Query::meta` flag toggles (query.cpp) -/

/-- The `for (i = 31; i <= 39; ++i) flags_[i].flag = false;` loop of
`Query::meta` clearing the recursion-depth digit flags. -/
def clearDigits (fl : ℕ → Bool) : ℕ → Bool :=
  Function.update (Function.update (Function.update (Function.update (Function.update (Function.update (Function.update (Function.update (Function.update fl 31 false) 32 false) 33 false) 34 false) 35 false) 36 false) 37 false) 38 false) 39 false

/-- The key of each entry of the `Query::flags_` table, by index; `keyIdx`
is the search loop `for (Flags *fp = flags_; fp->text != NULL; ++fp)`
returning the index of the entry whose key matches, or `none` (the
`Screen::alert()` fall-through). -/
def keyIdx (key : ℕ) : Option ℕ :=
  if key = 65 then some 0
  else if key = 66 then some 1
  else if key = 98 then some 2
  else if key = 67 then some 3
  else if key = 99 then some 4
  else if key = 70 then some 5
  else if key = 71 then some 6
  else if key = 72 then some 7
  else if key = 104 then some 8
  else if key = 73 then some 9
  else if key = 105 then some 10
  else if key = 106 then some 11
  else if key = 107 then some 12
  else if key = 108 then some 13
  else if key = 110 then some 14
  else if key = 111 then some 15
  else if key = 80 then some 16
  else if key = 82 then some 17
  else if key = 114 then some 18
  else if key = 84 then some 19
  else if key = 85 then some 20
  else if key = 117 then some 21
  else if key = 118 then some 22
  else if key = 87 then some 23
  else if key = 119 then some 24
  else if key = 88 then some 25
  else if key = 120 then some 26
  else if key = 89 then some 27
  else if key = 121 then some 28
  else if key = 122 then some 29
  else if key = 48 then some 30
  else if key = 49 then some 31
  else if key = 50 then some 32
  else if key = 51 then some 33
  else if key = 52 then some 34
  else if key = 53 then some 35
  else if key = 54 then some 36
  else if key = 55 then some 37
  else if key = 56 then some 38
  else if key = 57 then some 39
  else if key = 46 then some 40
  else if key = 43 then some 41
  else if key = 35 then some 42
  else if key = 36 then some 43
  else if key = 64 then some 44
  else if key = 94 then some 45
  else none

/-- The sibling-clearing `switch (key)` of `Query::meta`, executed when
the flag being toggled is currently off.  Case `'%'` (37) mirrors the dead
source case (no table entry has key `'%'`; the `'$'` entry has no case). -/
def metaClear (fl : ℕ → Bool) (key : ℕ) : ℕ → Bool :=
  if key = 65 then
    Function.update (Function.update (Function.update (Function.update fl 1 false) 3 false) 15 false) 28 false
  else if key = 66 then
    Function.update (Function.update (Function.update (Function.update fl 0 false) 3 false) 15 false) 28 false
  else if key = 98 ∨ key = 107 ∨ key = 110 then
    Function.update (Function.update fl 4 false) 13 false
  else if key = 67 then
    Function.update (Function.update (Function.update (Function.update fl 0 false) 1 false) 15 false) 28 false
  else if key = 99 then
    Function.update (Function.update (Function.update (Function.update fl 2 false) 12 false) 13 false) 14 false
  else if key = 72 then
    Function.update fl 8 false
  else if key = 104 then
    Function.update fl 7 false
  else if key = 73 then
    Function.update (Function.update fl 23 false) 25 false
  else if key = 105 then
    Function.update fl 11 false
  else if key = 106 then
    Function.update fl 10 false
  else if key = 108 then
    Function.update (Function.update (Function.update (Function.update fl 2 false) 4 false) 12 false) 14 false
  else if key = 111 then
    Function.update (Function.update (Function.update (Function.update fl 0 false) 1 false) 3 false) 28 false
  else if key = 82 then
    clearDigits (Function.update fl 18 false)
  else if key = 114 then
    clearDigits (Function.update fl 17 false)
  else if key = 87 then
    Function.update (Function.update fl 9 false) 25 false
  else if key = 119 then
    Function.update fl 26 false
  else if key = 88 then
    Function.update (Function.update fl 9 false) 23 false
  else if key = 120 then
    Function.update fl 24 false
  else if key = 121 then
    Function.update (Function.update (Function.update (Function.update fl 0 false) 1 false) 3 false) 15 false
  else if 49 ≤ key ∧ key ≤ 57 then
    if clearDigits fl 17 = false ∧ clearDigits fl 18 = false then Function.update (clearDigits fl) 17 true else clearDigits fl
  else if key = 35 then
    Function.update (Function.update fl 43 false) 44 false
  else if key = 37 then
    Function.update (Function.update fl 42 false) 44 false
  else if key = 64 then
    Function.update (Function.update fl 42 false) 43 false
  else fl

/-- The `switch (key)` of `Query::meta` executed when the flag is
currently on: toggling `R`/`r` off also clears the depth digits. -/
def metaOff (fl : ℕ → Bool) (key : ℕ) : ℕ → Bool :=
  if key = 82 ∨ key = 114 then clearDigits fl else fl

/-- `Query::meta(key)` on the flag table (modelled as a function from
entry index to flag value): find the entry, run the exclusion switch for
the current flag direction, then toggle `fp->flag = !fp->flag` (the
fully-featured build is modelled: the `-P`/`-z` availability guards of
limited builds are compiled out). -/
def metaKey (fl : ℕ → Bool) (key : ℕ) : ℕ → Bool :=
  match keyIdx key with
  | some idx =>
    if fl idx = false then Function.update (metaClear fl key) idx true
    else Function.update (metaOff fl key) idx false
  | none => fl

/-- A sequence of `Query::meta` key presses. -/
def metaRun (fl : ℕ → Bool) (keys : List ℕ) : ℕ → Bool :=
  keys.foldl metaKey fl

/-- Indices of the recursion-depth digit flags `'1'..'9'`. -/
@[reducible]
def digIdx : List ℕ := [31, 32, 33, 34, 35, 36, 37, 38, 39]

/-- The flag-table indices involved in the claimed exclusion invariants:
`A`/`B`/`C` context flags (0, 1, 3), `R`/`r` recursion flags (17, 18) and
the depth digits. -/
@[reducible]
def relIdx : List ℕ := [0, 1, 3, 17, 18, 31, 32, 33, 34, 35, 36, 37, 38, 39]

/-- At most one of the context flags `A` (0), `B` (1), `C` (3) is set. -/
@[reducible]
def abcOK (fl : ℕ → Bool) : Prop :=
  ¬(fl 0 = true ∧ fl 1 = true) ∧ ¬(fl 0 = true ∧ fl 3 = true) ∧
  ¬(fl 1 = true ∧ fl 3 = true)

/-- At most one depth digit is set, a set digit implies a recursion flag
(`R` = 17 or `r` = 18), and `R` and `r` are never both set. -/
@[reducible]
def digOK (fl : ℕ → Bool) : Prop :=
  (∀ i ∈ digIdx, ∀ j ∈ digIdx, fl i = true → fl j = true → i = j) ∧
  (∀ i ∈ digIdx, fl i = true → (fl 17 = true ∨ fl 18 = true)) ∧
  ¬(fl 17 = true ∧ fl 18 = true)

/-- All three exclusion-group invariants of the claim. -/
@[reducible]
def goodFlags (fl : ℕ → Bool) : Prop := abcOK fl ∧ digOK fl

/-- Only the at-most-one-per-group part, exactly as the claim's hypothesis
states it (without requiring a set digit to be accompanied by a recursion
flag). -/
@[reducible]
def groupsAtMostOne (fl : ℕ → Bool) : Prop :=
  abcOK fl ∧
  (∀ i ∈ digIdx, ∀ j ∈ digIdx, fl i = true → fl j = true → i = j) ∧
  ¬(fl 17 = true ∧ fl 18 = true)

/-- A flag table with only the depth digit `'1'` set (index 31) and no
recursion flag. -/
def digitOnlyState : ℕ → Bool := Function.update (fun _ => false) 31 true

/-! ### Theorems -/

set_option maxRecDepth 8192 in
theorem isCont_iff_range (x : ℕ) (h : x < 256) :
    isCont x = decide (0x80 ≤ x ∧ x < 0xc0) := by
  have hfin : ∀ c : Fin 256, isCont c.1 = decide (0x80 ≤ c.1 ∧ c.1 < 0xc0) := by decide
  exact hfin ⟨x, h⟩

theorem utf8Valid_head_not_cont (x : ℕ) (l : List ℕ)
    (h : utf8Run 0 (x :: l) = true) : isCont x = false := by
  rw [utf8Run] at h
  split_ifs at h with h1 h2 h3 h4
  · rw [isCont_iff_range x (by omega)]; simp; omega
  · rw [isCont_iff_range x (by omega)]; simp; omega
  · rw [isCont_iff_range x (by omega)]; simp; omega
  · rw [isCont_iff_range x (by omega)]; simp; omega

theorem cons_getD_one_not_cont (b : ℕ) (rest : List ℕ)
    (hr : utf8Run 0 rest = true) : isCont ((b :: rest).getD 1 0) = false := by
  cases rest with
  | nil => simp [List.getD, isCont]
  | cons x t => exact utf8Valid_head_not_cont x t hr

theorem contSteps_of_not_cont (l : List ℕ) (n : ℕ)
    (h : isCont (l.getD 1 0) = false) : contSteps l n = 0 := by
  cases n with
  | zero => rfl
  | succ m => rw [contSteps, h]; simp

theorem utf8Loop_k_zero (cur : List ℕ) (n : ℕ) : utf8Loop cur n 0 = 0 := by
  cases n <;> rfl

theorem utf8Loop_n_zero (cur : List ℕ) (k : ℕ) : utf8Loop cur 0 k = 0 := by
  cases k <;> rfl

theorem utf8Loop_spec : ∀ (k : ℕ) (cur : List ℕ), utf8ValidB cur = true →
    utf8Loop cur cur.length k ≤ cur.length ∧
    utf8ValidB (cur.take (utf8Loop cur cur.length k)) = true ∧
    cpCount (cur.take (utf8Loop cur cur.length k)) ≤ k := by
  intro k
  induction k with
  | zero =>
    intro cur _hv
    refine ⟨by simp [utf8Loop_k_zero], ?_, ?_⟩
    · rw [utf8Loop_k_zero]; rfl
    · rw [utf8Loop_k_zero]; simp [cpCount]
  | succ k ih =>
    intro cur hv
    rw [utf8ValidB] at hv
    match cur with
    | [] =>
      refine ⟨by simp [utf8Loop_n_zero], ?_, ?_⟩
      · rw [List.length_nil, utf8Loop_n_zero]; rfl
      · rw [List.length_nil, utf8Loop_n_zero]; simp [cpCount]
    | b :: rest =>
      rw [utf8Run] at hv
      by_cases hb1 : b < 0x80
      · rw [if_pos hb1] at hv
        have hbc : isCont b = false := by
          rw [isCont_iff_range b (by omega)]; simp; omega
        have hj : contSteps (b :: rest) rest.length = 0 :=
          contSteps_of_not_cont _ _ (cons_getD_one_not_cont b rest hv)
        have hstep : utf8Loop (b :: rest) (b :: rest).length (k + 1) =
            1 + utf8Loop rest rest.length k := by
          rw [List.length_cons, utf8Loop, hj]
          simp
        obtain ⟨hle, hval, hcnt⟩ := ih rest (by rw [utf8ValidB]; exact hv)
        rw [utf8ValidB] at hval
        refine ⟨?_, ?_, ?_⟩
        · rw [hstep]; simp; omega
        · rw [hstep, Nat.add_comm 1, List.take_succ_cons, utf8ValidB, utf8Run, if_pos hb1]
          exact hval
        · rw [hstep, Nat.add_comm 1, List.take_succ_cons, cpCount, hbc]
          simp; omega
      · rw [if_neg hb1] at hv
        by_cases hb2 : 0xc0 ≤ b ∧ b < 0xe0
        · rw [if_pos hb2] at hv
          have hbc : isCont b = false := by
            rw [isCont_iff_range b (by omega)]; simp; omega
          match rest with
          | [] => rw [utf8Run] at hv; exact absurd hv (by simp)
          | c1 :: r1 =>
            rw [utf8Run, Bool.and_eq_true] at hv
            obtain ⟨hc1, hr1⟩ := hv
            have hj : contSteps (b :: c1 :: r1) (r1.length + 1) = 1 := by
              have h2 : contSteps (c1 :: r1) r1.length = 0 :=
                contSteps_of_not_cont _ _ (cons_getD_one_not_cont c1 r1 hr1)
              rw [contSteps]
              have hg : (b :: c1 :: r1).getD 1 0 = c1 := rfl
              rw [hg, hc1, if_pos rfl, List.tail_cons, h2]
            have hstep : utf8Loop (b :: c1 :: r1) (b :: c1 :: r1).length (k + 1) =
                2 + utf8Loop r1 r1.length k := by
              rw [List.length_cons, List.length_cons, utf8Loop, hj]
              simp
            obtain ⟨hle, hval, hcnt⟩ := ih r1 (by rw [utf8ValidB]; exact hr1)
            rw [utf8ValidB] at hval
            have h21 : 2 + utf8Loop r1 r1.length k =
                (utf8Loop r1 r1.length k + 1) + 1 := by omega
            refine ⟨?_, ?_, ?_⟩
            · rw [hstep]; simp; omega
            · rw [hstep, h21, List.take_succ_cons, List.take_succ_cons,
                utf8ValidB, utf8Run, if_neg hb1, if_pos hb2, utf8Run,
                Bool.and_eq_true]
              exact ⟨hc1, hval⟩
            · rw [hstep, h21, List.take_succ_cons, List.take_succ_cons,
                cpCount, cpCount, hbc, hc1]
              simp; omega
        · rw [if_neg hb2] at hv
          by_cases hb3 : 0xe0 ≤ b ∧ b < 0xf0
          · rw [if_pos hb3] at hv
            have hbc : isCont b = false := by
              rw [isCont_iff_range b (by omega)]; simp; omega
            match rest with
            | [] => rw [utf8Run] at hv; exact absurd hv (by simp)
            | [c1] =>
              rw [utf8Run, Bool.and_eq_true] at hv
              obtain ⟨-, hv⟩ := hv
              rw [utf8Run] at hv; exact absurd hv (by simp)
            | c1 :: c2 :: r2 =>
              rw [utf8Run, Bool.and_eq_true] at hv
              obtain ⟨hc1, hv⟩ := hv
              rw [utf8Run, Bool.and_eq_true] at hv
              obtain ⟨hc2, hr2⟩ := hv
              have hj : contSteps (b :: c1 :: c2 :: r2) (r2.length + 1 + 1) = 2 := by
                have h2 : contSteps (c2 :: r2) r2.length = 0 :=
                  contSteps_of_not_cont _ _ (cons_getD_one_not_cont c2 r2 hr2)
                rw [contSteps]
                have hg : (b :: c1 :: c2 :: r2).getD 1 0 = c1 := rfl
                rw [hg, hc1, if_pos rfl, List.tail_cons, contSteps]
                have hg2 : (c1 :: c2 :: r2).getD 1 0 = c2 := rfl
                rw [hg2, hc2, if_pos rfl, List.tail_cons, h2]
              have hstep : utf8Loop (b :: c1 :: c2 :: r2)
                  (b :: c1 :: c2 :: r2).length (k + 1) =
                  3 + utf8Loop r2 r2.length k := by
                rw [List.length_cons, List.length_cons, List.length_cons, utf8Loop, hj]
                simp
              obtain ⟨hle, hval, hcnt⟩ := ih r2 (by rw [utf8ValidB]; exact hr2)
              rw [utf8ValidB] at hval
              have h31 : 3 + utf8Loop r2 r2.length k =
                  ((utf8Loop r2 r2.length k + 1) + 1) + 1 := by omega
              refine ⟨?_, ?_, ?_⟩
              · rw [hstep]; simp; omega
              · rw [hstep, h31, List.take_succ_cons, List.take_succ_cons,
                  List.take_succ_cons, utf8ValidB, utf8Run, if_neg hb1, if_neg hb2,
                  if_pos hb3, utf8Run, Bool.and_eq_true, utf8Run, Bool.and_eq_true]
                exact ⟨hc1, hc2, hval⟩
              · rw [hstep, h31, List.take_succ_cons, List.take_succ_cons,
                  List.take_succ_cons, cpCount, cpCount, cpCount, hbc, hc1, hc2]
                simp; omega
          · rw [if_neg hb3] at hv
            by_cases hb4 : 0xf0 ≤ b ∧ b < 0xf8
            · rw [if_pos hb4] at hv
              have hbc : isCont b = false := by
                rw [isCont_iff_range b (by omega)]; simp; omega
              match rest with
              | [] => rw [utf8Run] at hv; exact absurd hv (by simp)
              | [c1] =>
                rw [utf8Run, Bool.and_eq_true] at hv
                obtain ⟨-, hv⟩ := hv
                rw [utf8Run] at hv; exact absurd hv (by simp)
              | [c1, c2] =>
                rw [utf8Run, Bool.and_eq_true] at hv
                obtain ⟨-, hv⟩ := hv
                rw [utf8Run, Bool.and_eq_true] at hv
                obtain ⟨-, hv⟩ := hv
                rw [utf8Run] at hv; exact absurd hv (by simp)
              | c1 :: c2 :: c3 :: r3 =>
                rw [utf8Run, Bool.and_eq_true] at hv
                obtain ⟨hc1, hv⟩ := hv
                rw [utf8Run, Bool.and_eq_true] at hv
                obtain ⟨hc2, hv⟩ := hv
                rw [utf8Run, Bool.and_eq_true] at hv
                obtain ⟨hc3, hr3⟩ := hv
                have hj : contSteps (b :: c1 :: c2 :: c3 :: r3)
                    (r3.length + 1 + 1 + 1) = 3 := by
                  have h2 : contSteps (c3 :: r3) r3.length = 0 :=
                    contSteps_of_not_cont _ _ (cons_getD_one_not_cont c3 r3 hr3)
                  rw [contSteps]
                  have hg : (b :: c1 :: c2 :: c3 :: r3).getD 1 0 = c1 := rfl
                  rw [hg, hc1, if_pos rfl, List.tail_cons, contSteps]
                  have hg2 : (c1 :: c2 :: c3 :: r3).getD 1 0 = c2 := rfl
                  rw [hg2, hc2, if_pos rfl, List.tail_cons, contSteps]
                  have hg3 : (c2 :: c3 :: r3).getD 1 0 = c3 := rfl
                  rw [hg3, hc3, if_pos rfl, List.tail_cons, h2]
                have hstep : utf8Loop (b :: c1 :: c2 :: c3 :: r3)
                    (b :: c1 :: c2 :: c3 :: r3).length (k + 1) =
                    4 + utf8Loop r3 r3.length k := by
                  rw [List.length_cons, List.length_cons, List.length_cons,
                    List.length_cons, utf8Loop, hj]
                  simp
                obtain ⟨hle, hval, hcnt⟩ := ih r3 (by rw [utf8ValidB]; exact hr3)
                rw [utf8ValidB] at hval
                have h41 : 4 + utf8Loop r3 r3.length k =
                    (((utf8Loop r3 r3.length k + 1) + 1) + 1) + 1 := by omega
                refine ⟨?_, ?_, ?_⟩
                · rw [hstep]; simp; omega
                · rw [hstep, h41, List.take_succ_cons, List.take_succ_cons,
                    List.take_succ_cons, List.take_succ_cons, utf8ValidB, utf8Run,
                    if_neg hb1, if_neg hb2, if_neg hb3, if_pos hb4, utf8Run,
                    Bool.and_eq_true, utf8Run, Bool.and_eq_true, utf8Run,
                    Bool.and_eq_true]
                  exact ⟨hc1, hc2, hc3, hval⟩
                · rw [hstep, h41, List.take_succ_cons, List.take_succ_cons,
                    List.take_succ_cons, List.take_succ_cons, cpCount, cpCount,
                    cpCount, cpCount, hbc, hc1, hc2, hc3]
                  simp; omega
            · rw [if_neg hb4] at hv
              exact absurd hv (by simp)

/-- C6: for every valid-UTF-8 input span of `n` bytes and every bound `k`,
the span emitted by `Output::utf8strn(s, n, k)` is a prefix of the input of
at most `k` code points, and it ends on a UTF-8 character boundary (the
emitted prefix is itself structurally valid UTF-8). -/
theorem utf8strn_boundary (bytes : List ℕ) (k : ℕ)
    (hv : utf8ValidB bytes = true) :
    utf8strnLen bytes bytes.length k ≤ bytes.length ∧
    utf8ValidB (bytes.take (utf8strnLen bytes bytes.length k)) = true ∧
    cpCount (bytes.take (utf8strnLen bytes bytes.length k)) ≤ k :=
  utf8Loop_spec k bytes hv

/-- Witness for C6: the three-byte input `0xC3 0xA9 0x61` (`é` then `a`)
with `k = 1` emits exactly the two-byte character. -/
theorem utf8strn_boundary_witness :
    utf8ValidB [0xc3, 0xa9, 0x61] = true ∧
      (utf8strnLen [0xc3, 0xa9, 0x61] 3 1 ≤ 3 ∧
       utf8ValidB ([0xc3, 0xa9, 0x61].take (utf8strnLen [0xc3, 0xa9, 0x61] 3 1)) = true ∧
       cpCount ([0xc3, 0xa9, 0x61].take (utf8strnLen [0xc3, 0xa9, 0x61] 3 1)) ≤ 1) :=
  ⟨by decide, utf8strn_boundary [0xc3, 0xa9, 0x61] 1 (by decide)⟩

set_option maxRecDepth 8192 in
theorem uriBytes_singleton_claim :
    ∀ c : Fin 256, uriBytes [c.1] = uriClaimEnc c.1 := by decide

theorem uriBytes_cons (b : ℕ) (s : List ℕ) (hb : b < 256) :
    uriBytes (b :: s) = uriClaimEnc b ++ uriBytes s := by
  have h1 : uriBytes [b] = uriClaimEnc b := uriBytes_singleton_claim ⟨b, hb⟩
  by_cases hc : 0x20 ≤ sByte b ∧ sByte b ≤ 0x7e ∧ b ≠ 37 ∧ b ≠ 59
  · simp only [uriBytes, if_pos hc] at h1 ⊢
    simp [← h1]
  · simp only [uriBytes, if_neg hc] at h1 ⊢
    simp at h1
    simp [← h1]

/-- C9: for every NUL-terminated input string (modelled as its list of
non-NUL bytes), `Output::uri` emits each byte in `0x20..0x7E` other than
`%` and `;` unchanged and every other byte as `%` followed by exactly two
hexadecimal digits of the byte's value. -/
theorem uri_percent_encoding (s : List ℕ) (h : ∀ b ∈ s, 0 < b ∧ b < 256) :
    uriBytes s = (s.map uriClaimEnc).flatten := by
  induction s with
  | nil => rfl
  | cons b t ih =>
    have hb := h b (by simp)
    rw [uriBytes_cons b t hb.2, List.map_cons, List.flatten]
    rw [ih (fun c hc => h c (by simp [hc]))]

/-- Witness for C9 at a concrete input: bytes `a`, space, `%`, `0xE9`, `\n`. -/
theorem uri_percent_encoding_witness :
    (∀ b ∈ [97, 32, 37, 233, 10], 0 < b ∧ b < 256) ∧
      uriBytes [97, 32, 37, 233, 10] =
        (([97, 32, 37, 233, 10].map uriClaimEnc)).flatten := by
  refine ⟨by decide, uri_percent_encoding [97, 32, 37, 233, 10] (by decide)⟩

theorem scanTo_decomp (t : ℕ) : ∀ l : List ℕ, l = (scanTo t l).1 ++ (scanTo t l).2 := by
  intro l
  induction l with
  | nil => rfl
  | cons b r ih =>
    by_cases hb : b = t
    · simp [scanTo, hb]
    · simp only [scanTo, if_neg hb]
      exact congrArg (b :: ·) ih

theorem scanTo_fst_ne (t : ℕ) : ∀ l : List ℕ, ∀ x ∈ (scanTo t l).1, x ≠ t := by
  intro l
  induction l with
  | nil => intro x hx; simp [scanTo] at hx
  | cons b r ih =>
    intro x hx
    by_cases hb : b = t
    · simp [scanTo, hb] at hx
    · simp only [scanTo, if_neg hb, List.mem_cons] at hx
      rcases hx with rfl | hx
      · exact hb
      · exact ih x hx

theorem scanTo_snd_shape (t : ℕ) :
    ∀ l : List ℕ, (scanTo t l).2 = [] ∨ ∃ s, (scanTo t l).2 = t :: s := by
  intro l
  induction l with
  | nil => left; rfl
  | cons b r ih =>
    by_cases hb : b = t
    · right; exact ⟨r, by simp [scanTo, hb]⟩
    · simpa [scanTo, if_neg hb] using ih

theorem scanTo_append (t : ℕ) (s : List ℕ) :
    ∀ c : List ℕ, (∀ x ∈ c, x ≠ t) → scanTo t (c ++ t :: s) = (c, t :: s) := by
  intro c
  induction c with
  | nil => intro _; simp [scanTo]
  | cons b c1 ih =>
    intro hc
    have hb : b ≠ t := hc b (by simp)
    have hi := ih (fun x hx => hc x (by simp [hx]))
    have hA : (b :: c1) ++ t :: s = b :: (c1 ++ t :: s) := rfl
    rw [hA, scanTo, if_neg hb, hi]

theorem isFilename_true_ne (fwm : Bool) (line prev : List ℕ)
    (h : (isFilename fwm line prev).1 = true) :
    (isFilename fwm line prev).2 ≠ prev := by
  unfold isFilename at h ⊢
  cases hx : isFilenameExtract fwm line with
  | none => rw [hx] at h; simp at h
  | some e =>
    rw [hx] at h
    by_cases he : e = prev
    · simp [he] at h
    · simp [he]

theorem isFilename_false_prev (fwm : Bool) (line prev : List ℕ)
    (h : (isFilename fwm line prev).1 = false) :
    (isFilename fwm line prev).2 = prev := by
  unfold isFilename at h ⊢
  cases hx : isFilenameExtract fwm line with
  | none => simp
  | some e =>
    rw [hx] at h
    by_cases he : e = prev
    · simp [he]
    · simp [he] at h

theorem scanTo_append_fst (t : ℕ) (s c : List ℕ) (hc : ∀ x ∈ c, x ≠ t) :
    (scanTo t (c ++ t :: s)).1 = c := by
  rw [scanTo_append t s c hc]

theorem scanTo_append_snd (t : ℕ) (s c : List ℕ) (hc : ∀ x ∈ c, x ≠ t) :
    (scanTo t (c ++ t :: s)).2 = t :: s := by
  rw [scanTo_append t s c hc]

theorem extract_some_iff (line name : List ℕ) :
    isFilenameExtract false line = some name ↔
    ∃ mid tail, line = 0 :: (mid ++ 0 :: (name ++ 0 :: tail)) ∧
      (∀ x ∈ mid, x ≠ 0) ∧ (∀ x ∈ name, x ≠ 0) ∧ name ≠ [] := by
  constructor
  · intro h
    simp only [isFilenameExtract, Bool.false_eq_true, if_false] at h
    by_cases hl : line.length < 4
    · rw [if_pos hl] at h; exact absurd h (by simp)
    rw [if_neg hl] at h
    match line with
    | [] => simp at hl
    | hd :: tl =>
      by_cases h0 : (hd :: tl).getD 0 1 ≠ 0
      · rw [if_pos h0] at h; exact absurd h (by simp)
      rw [if_neg h0] at h
      have hhd : hd = 0 := by simpa [List.getD] using h0
      subst hhd
      rw [List.tail_cons] at h
      cases hs1 : (scanTo 0 tl).2 with
      | nil => rw [hs1, if_pos rfl] at h; exact absurd h (by simp)
      | cons z r2 =>
        rw [hs1] at h
        rw [if_neg (by simp)] at h
        rw [List.tail_cons] at h
        have hz : z = 0 := by
          rcases scanTo_snd_shape 0 tl with h0a | ⟨s, hsa⟩
          · rw [hs1] at h0a; exact absurd h0a (by simp)
          · rw [hs1] at hsa; exact (List.cons_eq_cons.mp hsa).1
        by_cases hr2 : r2 = []
        · rw [if_pos hr2] at h; exact absurd h (by simp)
        rw [if_neg hr2] at h
        cases hs2 : (scanTo 0 r2).2 with
        | nil => rw [hs2, if_pos rfl] at h; exact absurd h (by simp)
        | cons z2 tail =>
          rw [hs2] at h
          rw [if_neg (by simp)] at h
          have hz2 : z2 = 0 := by
            rcases scanTo_snd_shape 0 r2 with h0a | ⟨s, hsa⟩
            · rw [hs2] at h0a; exact absurd h0a (by simp)
            · rw [hs2] at hsa; exact (List.cons_eq_cons.mp hsa).1
          by_cases hnm : (scanTo 0 r2).1 = []
          · rw [if_pos hnm] at h; exact absurd h (by simp)
          rw [if_neg hnm] at h
          have hname : (scanTo 0 r2).1 = name := Option.some.inj h
          refine ⟨(scanTo 0 tl).1, tail, ?_, scanTo_fst_ne 0 tl, ?_, ?_⟩
          · have e1 : tl = (scanTo 0 tl).1 ++ (scanTo 0 tl).2 := scanTo_decomp 0 tl
            have e2 : r2 = (scanTo 0 r2).1 ++ (scanTo 0 r2).2 := scanTo_decomp 0 r2
            rw [hs2, hz2, hname] at e2
            rw [hs1, hz, e2] at e1
            exact congrArg (fun l => 0 :: l) e1
          · rw [← hname]; exact scanTo_fst_ne 0 r2
          · rw [← hname]; exact hnm
  · rintro ⟨mid, tail, heq, hmid, hname, hne⟩
    rcases List.exists_cons_of_ne_nil hne with ⟨n0, nr, rfl⟩
    have hlen : ¬ line.length < 4 := by
      subst heq
      simp [List.length_append]
      omega
    subst heq
    simp only [isFilenameExtract, Bool.false_eq_true, if_false, if_neg hlen]
    rw [if_neg (by simp [List.getD])]
    rw [List.tail_cons, scanTo_append_snd 0 _ mid hmid]
    rw [if_neg (by simp), List.tail_cons]
    have hr2 : (n0 :: nr) ++ 0 :: tail ≠ [] := by simp
    rw [if_neg hr2, scanTo_append_snd 0 tail _ hname,
      scanTo_append_fst 0 tail _ hname]
    rw [if_neg (by simp), if_neg hne]

/-- C3 (amended): in non-files-with-matches mode, `Query::is_filename`
returns true iff the line begins with NUL, a second NUL follows after zero
or more non-NUL bytes (the code does not require a byte between the first
two NULs), a third NUL follows the second after a non-empty NUL-free
filename, and that filename differs from the stored previous name, in
which case the stored name becomes the extracted span between the second
and third NUL; in both modes a true result means the extracted name
differs from the stored one, and a false result leaves the stored name
unchanged. -/
theorem is_filename_nul_framing (line prev : List ℕ) :
    ((isFilename false line prev).1 = true ↔
      ∃ mid name tail, line = 0 :: (mid ++ 0 :: (name ++ 0 :: tail)) ∧
        (∀ x ∈ mid, x ≠ 0) ∧ (∀ x ∈ name, x ≠ 0) ∧ name ≠ [] ∧
        name ≠ prev ∧ (isFilename false line prev).2 = name) ∧
    ((isFilename false line prev).1 = false →
      (isFilename false line prev).2 = prev) ∧
    ((isFilename true line prev).1 = true →
      (isFilename true line prev).2 ≠ prev) ∧
    ((isFilename true line prev).1 = false →
      (isFilename true line prev).2 = prev) := by
  refine ⟨?_, isFilename_false_prev false line prev,
    isFilename_true_ne true line prev, isFilename_false_prev true line prev⟩
  constructor
  · intro h
    unfold isFilename at h
    cases hx : isFilenameExtract false line with
    | none => rw [hx] at h; simp at h
    | some e =>
      rw [hx] at h
      by_cases he : e = prev
      · simp [he] at h
      · obtain ⟨mid, tail, heq, hmid, hname, hne⟩ := (extract_some_iff line e).mp hx
        refine ⟨mid, e, tail, heq, hmid, hname, hne, he, ?_⟩
        unfold isFilename
        rw [hx]
        simp [he]
  · rintro ⟨mid, name, tail, heq, hmid, hname, hne, hnp, -⟩
    have hx : isFilenameExtract false line = some name :=
      (extract_some_iff line name).mpr ⟨mid, tail, heq, hmid, hname, hne⟩
    unfold isFilename
    rw [hx]
    simp [hnp]

/-- Counterexample for C3 as stated: on the line `\0\0f\0` the second NUL
follows the first immediately (no byte between them), so the claimed
condition fails, yet the code accepts the line and reports filename `f`. -/
theorem is_filename_counterexample :
    (isFilename false [0, 0, 102, 0] []).1 = true ∧
      ¬ nulMarkerOrigP [0, 0, 102, 0] := by
  constructor
  · rfl
  · rintro ⟨mid, name, tail, heq, hmid, _, hmne, -⟩
    rcases List.exists_cons_of_ne_nil hmne with ⟨m0, mid1, rfl⟩
    have h1 := congrArg (fun l => l.getD 1 7) heq
    simp [List.getD] at h1
    exact hmid m0 (by simp) h1.symm

theorem fetchRow_preserves_inv (st : QueryState) (chunk : List ℕ)
    (incomplete : Bool) (h : st.selected.length = st.view.length) :
    (fetchRow st chunk incomplete).selected.length =
      (fetchRow st chunk incomplete).view.length := by
  simp only [fetchRow]
  by_cases hg : st.view.length ≤ st.rows <;> by_cases ha : st.app = true <;>
    simp [hg, ha, List.length_set, h]

/-- C7 is violated by the code: `load_line` and `save_line` in EDIT mode
append a row to `view_` without appending to `selected_`, so from a state
satisfying `|selected_| = |view_|` a single EDIT-mode load or save yields
`|view_| = 1` but `|selected_| = 0` (while `fetch` grows both in
lockstep, see `fetchRow_preserves_inv`). -/
theorem load_save_line_break_selected_invariant :
    editBugState.selected.length = editBugState.view.length ∧
    (loadLine editBugState).view.length = 1 ∧
    (loadLine editBugState).selected.length = 0 ∧
    (saveLine editBugState).view.length = 1 ∧
    (saveLine editBugState).selected.length = 0 := by
  refine ⟨rfl, ?_, ?_, ?_, ?_⟩ <;> decide

theorem flushOut_eof (st : OutState) (h : st.eof = true) :
    flushOut st =
      { st with chain := [], cur := [], spares := st.spares + st.chain.length } := by
  unfold flushOut
  by_cases hd : st.chain = [] ∧ st.cur = []
  · rw [if_pos hd]
    obtain ⟨c, u, sp, e, m, sy, a, fw, ff, so⟩ := st
    obtain ⟨h1, h2⟩ := hd
    simp only at h1 h2
    subst h1; subst h2
    simp
  · rw [if_neg hd, if_pos h]

theorem nextBuf_eof (st : OutState) (h : st.eof = true) :
    (nextBuf st).sinkOut = st.sinkOut ∧ (nextBuf st).eof = true := by
  unfold nextBuf
  by_cases hc : st.mode &&& 2 = 0 ∧ st.acq = true
  · rw [if_pos hc, flushOut_eof st h]; exact ⟨rfl, h⟩
  · rw [if_neg hc]; exact ⟨rfl, h⟩

theorem chrOp_eof (st : OutState) (b : ℕ) (h : st.eof = true) :
    (chrOp st b).sinkOut = st.sinkOut ∧ (chrOp st b).eof = true := by
  unfold chrOp
  by_cases hc : SIZE ≤ st.cur.length
  · rw [if_pos hc]
    exact ⟨(nextBuf_eof st h).1, (nextBuf_eof st h).2⟩
  · rw [if_neg hc]; exact ⟨rfl, h⟩

theorem strOpF_eof : ∀ (f : ℕ) (st : OutState) (s : List ℕ), st.eof = true →
    (strOpF f st s).sinkOut = st.sinkOut ∧ (strOpF f st s).eof = true := by
  intro f
  induction f with
  | zero => intro st s h; exact ⟨rfl, h⟩
  | succ f ih =>
    intro st s h
    unfold strOpF
    by_cases hc : SIZE ≤ st.cur.length + s.length
    · rw [if_pos hc]
      set st1 := { st with cur := st.cur ++ s.take (SIZE - st.cur.length) } with hst1
      have h1 : st1.eof = true := h
      obtain ⟨ha, hb⟩ := nextBuf_eof st1 h1
      obtain ⟨hA, hB⟩ := ih (nextBuf st1) (s.drop (SIZE - st.cur.length)) hb
      exact ⟨by rw [hA, ha], hB⟩
    · rw [if_neg hc]; exact ⟨rfl, h⟩

theorem strOp_eof (st : OutState) (s : List ℕ) (h : st.eof = true) :
    (strOp st s).sinkOut = st.sinkOut ∧ (strOp st s).eof = true :=
  strOpF_eof _ st s h

theorem checkFlush_eof (st : OutState) (h : st.eof = true) :
    (checkFlush st).sinkOut = st.sinkOut ∧ (checkFlush st).eof = true := by
  unfold checkFlush
  by_cases hm : st.mode = 1
  · rw [if_pos hm, flushOut_eof st h]; exact ⟨rfl, h⟩
  · rw [if_neg hm]; exact ⟨rfl, h⟩

theorem nlOp_eof (st : OutState) (h : st.eof = true) :
    (nlOp st).sinkOut = st.sinkOut ∧ (nlOp st).eof = true := by
  unfold nlOp
  obtain ⟨ha, hb⟩ := chrOp_eof st 10 h
  obtain ⟨hA, hB⟩ := checkFlush_eof (chrOp st 10) hb
  exact ⟨by rw [hA, ha], hB⟩

theorem launchOp_eof (st : OutState) (h : st.eof = true) :
    (launchOp st).sinkOut = st.sinkOut ∧ (launchOp st).eof = true := by
  unfold launchOp
  by_cases hm : st.mode &&& 2 ≠ 0
  · rw [if_pos hm]
    exact checkFlush_eof { st with mode := st.mode &&& NOT_HOLD } h
  · rw [if_neg hm]; exact ⟨rfl, h⟩

theorem applyOp_eof (st : OutState) (op : EmitOp) (h : st.eof = true) :
    (applyOp st op).sinkOut = st.sinkOut ∧ (applyOp st op).eof = true := by
  cases op with
  | chr b => exact chrOp_eof st b h
  | str s => exact strOp_eof st s h
  | nl => exact nlOp_eof st h
  | flush => rw [show applyOp st .flush = flushOut st from rfl, flushOut_eof st h]; exact ⟨rfl, h⟩
  | hold => exact ⟨rfl, h⟩
  | launch => exact launchOp_eof st h
  | discard => exact ⟨rfl, h⟩

theorem runOut_eof : ∀ (ops : List EmitOp) (st : OutState), st.eof = true →
    (runOut st ops).sinkOut = st.sinkOut ∧ (runOut st ops).eof = true := by
  intro ops
  induction ops with
  | nil => intro st h; exact ⟨rfl, h⟩
  | cons op rest ih =>
    intro st h
    obtain ⟨ha, hb⟩ := applyOp_eof st op h
    obtain ⟨hA, hB⟩ := ih (applyOp st op) hb
    exact ⟨by rw [runOut, List.foldl_cons, ← runOut, hA, ha], by
      rw [runOut, List.foldl_cons, ← runOut]; exact hB⟩

/-- C10: once `eof` is set, every `Output::flush` writes zero bytes to the
sink and still resets the chain cursor to the start of the first buffer,
silently discarding all data buffered after the cancellation. -/
theorem flush_after_eof_discards (st : OutState) (h : st.eof = true) :
    (flushOut st).sinkOut = st.sinkOut ∧ (flushOut st).chain = [] ∧
    (flushOut st).cur = [] ∧ (flushOut st).eof = true := by
  rw [flushOut_eof st h]
  exact ⟨rfl, rfl, rfl, h⟩

/-- Witness for C10 at a concrete cancelled writer with one buffered
byte. -/
theorem flush_after_eof_discards_witness :
    eofState.eof = true ∧
      ((flushOut eofState).sinkOut = eofState.sinkOut ∧
       (flushOut eofState).chain = [] ∧ (flushOut eofState).cur = [] ∧
       (flushOut eofState).eof = true) :=
  ⟨rfl, flush_after_eof_discards eofState rfl⟩

theorem writeChunks_fail_iff (chunks : List (List ℕ)) : ∀ fw : ℕ → ℕ,
    ((writeChunks fw chunks).2.2 = true ↔ ∃ i < chunks.length, fw i < SIZE) := by
  induction chunks with
  | nil => intro fw; simp [writeChunks]
  | cons c cs ih =>
    intro fw
    by_cases h0 : fw 0 < SIZE
    · simp only [writeChunks, if_pos h0]
      constructor
      · intro _; exact ⟨0, by simp, h0⟩
      · intro _; trivial
    · simp only [writeChunks, if_neg h0]
      rw [ih (fun i => fw (i + 1))]
      constructor
      · rintro ⟨i, hi, hfw⟩
        exact ⟨i + 1, by simpa using hi, hfw⟩
      · rintro ⟨i, hi, hfw⟩
        match i with
        | 0 => exact absurd hfw h0
        | j + 1 => exact ⟨j, by simpa using hi, hfw⟩

theorem writeChunks_ok (chunks : List (List ℕ)) : ∀ fw : ℕ → ℕ,
    (∀ i < chunks.length, SIZE ≤ fw i) →
    writeChunks fw chunks = (chunks.flatten, chunks.length, false) := by
  induction chunks with
  | nil => intro fw _; rfl
  | cons c cs ih =>
    intro fw h
    have h0 : ¬ fw 0 < SIZE := by
      have := h 0 (by simp)
      omega
    have hr := ih (fun i => fw (i + 1)) (fun i hi => h (i + 1) (by simpa using hi))
    simp only [writeChunks, if_neg h0, hr]
    simp

theorem flushCore_fail (chain : List (List ℕ)) (cur : List ℕ) (fw : ℕ → ℕ)
    (ff : ℕ → Bool)
    (h : (∃ i < chain.length, fw i < SIZE) ∨
      ((∀ i < chain.length, SIZE ≤ fw i) ∧ cur ≠ [] ∧ fw chain.length < cur.length) ∨
      ((∀ i < chain.length, SIZE ≤ fw i) ∧
        (cur = [] ∨ ¬ fw chain.length < cur.length) ∧ ff 0 = false)) :
    (flushCore chain cur fw ff).failed = true := by
  rcases h with h1 | ⟨hall, hcur, hshort⟩ | ⟨hall, hok, hff⟩
  · have : (writeChunks fw chain).2.2 = true := (writeChunks_fail_iff chain fw).mpr h1
    unfold flushCore
    rw [if_pos this]
  · have hwc := writeChunks_ok chain fw hall
    unfold flushCore
    rw [hwc]
    simp only [if_neg (show ¬ (false : Bool) = true by simp), if_neg hcur]
    rw [if_pos hshort]
  · have hwc := writeChunks_ok chain fw hall
    unfold flushCore
    rw [hwc]
    simp only [if_neg (show ¬ (false : Bool) = true by simp)]
    by_cases hc : cur = []
    · rw [if_pos hc, hff]
      simp
    · have hns : ¬ fw chain.length < cur.length := by
        rcases hok with h | h
        · exact absurd h hc
        · exact h
      rw [if_neg hc, if_neg hns, hff]
      simp

/-- C2: if during `Output::flush` the sink reports a short write or
`fflush` fails, then the writer sets its `eof` flag and cancels the
attached synchronizer (its `last` becomes the `STOP` sentinel), and no
emit operation performed afterwards (chr, str, nl, further flushes,
launch, ...) ever delivers another byte to the sink. -/
theorem flush_error_cancels_and_silences (st : OutState) (l : ℕ)
    (he : st.eof = false) (hs : st.syncLast = some l) (hf : flushFails st) :
    (flushOut st).eof = true ∧ (flushOut st).syncLast = some STOP ∧
    ∀ ops : List EmitOp,
      (runOut (flushOut st) ops).sinkOut = (flushOut st).sinkOut := by
  obtain ⟨hd, hcond⟩ := hf
  have hd' : ¬ (st.chain = [] ∧ st.cur = []) := by
    rintro ⟨h1, h2⟩
    rcases hd with h | h
    · exact h h1
    · exact h h2
  have hfail : (flushCore st.chain st.cur st.fwRet st.ffRet).failed = true := by
    apply flushCore_fail
    rcases hcond with h | h | h
    · exact Or.inl h
    · exact Or.inr (Or.inl h)
    · exact Or.inr (Or.inr h)
  have heof : (flushOut st).eof = true := by
    unfold flushOut
    rw [if_neg hd', if_neg (by rw [he]; simp)]
    simpa using hfail
  refine ⟨heof, ?_, fun ops => (runOut_eof ops (flushOut st) heof).1⟩
  unfold flushOut
  rw [if_neg hd', if_neg (by rw [he]; simp)]
  simp only [if_pos hfail, hs]
  rfl

/-- Witness for C2: a writer with one buffered byte whose sink accepts
zero bytes of it. -/
theorem flush_error_cancels_and_silences_witness :
    (shortWriteState.eof = false ∧ shortWriteState.syncLast = some 0 ∧
      flushFails shortWriteState) ∧
    ((flushOut shortWriteState).eof = true ∧
     (flushOut shortWriteState).syncLast = some STOP ∧
     ∀ ops : List EmitOp,
       (runOut (flushOut shortWriteState) ops).sinkOut =
         (flushOut shortWriteState).sinkOut) := by
  refine ⟨⟨rfl, rfl, ?_⟩, flush_error_cancels_and_silences shortWriteState 0 rfl rfl ?_⟩
  · exact ⟨Or.inr (by simp [shortWriteState]),
      Or.inr (Or.inl ⟨by simp [shortWriteState], by simp [shortWriteState],
        by simp [shortWriteState]⟩)⟩
  · exact ⟨Or.inr (by simp [shortWriteState]),
      Or.inr (Or.inl ⟨by simp [shortWriteState], by simp [shortWriteState],
        by simp [shortWriteState]⟩)⟩

theorem nextBuf_hold (st : OutState) (hh : st.mode &&& 2 ≠ 0) :
    nextBuf st =
      { st with chain := st.chain ++ [st.cur], cur := [],
                spares := st.spares - 1 } := by
  unfold nextBuf
  rw [if_neg]
  rintro ⟨h1, -⟩
  exact hh h1

theorem chrOp_hold (st : OutState) (b : ℕ) (hh : st.mode &&& 2 ≠ 0) :
    (chrOp st b).sinkOut = st.sinkOut ∧
    totalBuf (chrOp st b) = totalBuf st ++ [b] ∧
    (chrOp st b).mode = st.mode ∧ (chrOp st b).eof = st.eof ∧
    (chrOp st b).acq = st.acq := by
  unfold chrOp
  by_cases hc : SIZE ≤ st.cur.length
  · rw [if_pos hc, nextBuf_hold st hh]
    simp [totalBuf]
  · rw [if_neg hc]
    simp [totalBuf]

theorem strOpF_hold : ∀ (f : ℕ) (st : OutState) (s : List ℕ),
    st.mode &&& 2 ≠ 0 → st.cur.length + s.length + 2 ≤ f →
    (strOpF f st s).sinkOut = st.sinkOut ∧
    totalBuf (strOpF f st s) = totalBuf st ++ s ∧
    (strOpF f st s).mode = st.mode := by
  intro f
  induction f with
  | zero => intro st s _ hf; omega
  | succ f ih =>
    intro st s hh hf
    unfold strOpF
    by_cases hc : SIZE ≤ st.cur.length + s.length
    · rw [if_pos hc]
      have hk : 1 ≤ st.cur.length + (SIZE - st.cur.length) := by
        have : (16384 : ℕ) = SIZE := rfl
        omega
      set k := SIZE - st.cur.length with hkdef
      set st1 := nextBuf { st with cur := st.cur ++ s.take k } with hst1
      have hmode1 : st1.mode = st.mode := by
        rw [hst1, nextBuf_hold _ (by simpa using hh)]
      have hcur1 : st1.cur = [] := by
        rw [hst1, nextBuf_hold _ (by simpa using hh)]
      have hsink1 : st1.sinkOut = st.sinkOut := by
        rw [hst1, nextBuf_hold _ (by simpa using hh)]
      have htb1 : totalBuf st1 = totalBuf st ++ s.take k := by
        rw [hst1, nextBuf_hold _ (by simpa using hh)]
        simp [totalBuf]
      have hfuel : st1.cur.length + (s.drop k).length + 2 ≤ f := by
        rw [hcur1]
        simp only [List.length_nil, List.length_drop]
        have hsl : k ≤ s.length := by
          have : (16384 : ℕ) = SIZE := rfl
          omega
        omega
      obtain ⟨hA, hB, hC⟩ := ih st1 (s.drop k) (by rw [hmode1]; exact hh) hfuel
      refine ⟨by rw [hA, hsink1], ?_, by rw [hC, hmode1]⟩
      rw [hB, htb1, List.append_assoc, List.take_append_drop]
    · rw [if_neg hc]
      simp [totalBuf]

theorem strOp_hold (st : OutState) (s : List ℕ) (hh : st.mode &&& 2 ≠ 0) :
    (strOp st s).sinkOut = st.sinkOut ∧
    totalBuf (strOp st s) = totalBuf st ++ s ∧
    (strOp st s).mode = st.mode :=
  strOpF_hold _ st s hh (le_refl _)

theorem hold_mode_ne_one (m : ℕ) (hh : m &&& 2 ≠ 0) : m ≠ 1 := by
  intro h1
  rw [h1] at hh
  exact hh rfl

theorem nlOp_hold (st : OutState) (hh : st.mode &&& 2 ≠ 0) :
    (nlOp st).sinkOut = st.sinkOut ∧
    totalBuf (nlOp st) = totalBuf st ++ [10] ∧
    (nlOp st).mode = st.mode := by
  obtain ⟨h1, h2, h3, -, -⟩ := chrOp_hold st 10 hh
  unfold nlOp checkFlush
  rw [if_neg (by rw [h3]; exact hold_mode_ne_one st.mode hh)]
  exact ⟨h1, h2, h3⟩

theorem flushOut_ok (st : OutState) (he : st.eof = false)
    (hw : ∀ i, SIZE ≤ st.fwRet i) (hglobal : st.ffRet 0 = true)
    (hcur : st.cur.length ≤ SIZE) :
    (flushOut st).sinkOut = st.sinkOut ++ totalBuf st ∧
    (flushOut st).eof = false ∧ (flushOut st).chain = [] ∧
    (flushOut st).cur = [] := by
  by_cases hd : st.chain = [] ∧ st.cur = []
  · unfold flushOut
    rw [if_pos hd]
    obtain ⟨h1, h2⟩ := hd
    refine ⟨by simp [totalBuf, h1, h2], he, h1, h2⟩
  · have hwc := writeChunks_ok st.chain st.fwRet (fun i _ => hw i)
    have hnotfail : (flushCore st.chain st.cur st.fwRet st.ffRet).failed = false := by
      unfold flushCore
      rw [hwc]
      simp only [if_neg (show ¬ (false : Bool) = true by simp)]
      by_cases hc : st.cur = []
      · rw [if_pos hc, hglobal]; simp
      · rw [if_neg hc, if_neg (by have := hw st.chain.length; omega), hglobal]
        simp
    have hbytes : (flushCore st.chain st.cur st.fwRet st.ffRet).bytes = totalBuf st := by
      unfold flushCore
      rw [hwc]
      simp only [if_neg (show ¬ (false : Bool) = true by simp)]
      by_cases hc : st.cur = []
      · rw [if_pos hc, hglobal]
        simp [totalBuf, hc]
      · rw [if_neg hc, if_neg (by have := hw st.chain.length; omega), hglobal]
        simp [totalBuf]
    unfold flushOut
    rw [if_neg hd, if_neg (by rw [he]; simp)]
    refine ⟨by rw [hbytes], by simpa using hnotfail, rfl, rfl⟩

/-- C4 (amended): with the `HOLD` bit set, no emit operation and no
newline flushes to the sink — a full buffer advances to the next buffer in
the chain (growing it if needed) and all output is retained — and
`launch()` clears the `HOLD` bit; but `launch()` flushes the pending
buffered data only when the remaining mode is exactly `FLUSH`
(line-buffered): with mode `HOLD` alone it writes nothing and the data
stays buffered. -/
theorem hold_suppresses_flush_launch (st : OutState) (b : ℕ) (s : List ℕ)
    (hh : st.mode &&& 2 ≠ 0) :
    (chrOp st b).sinkOut = st.sinkOut ∧
    totalBuf (chrOp st b) = totalBuf st ++ [b] ∧
    (SIZE ≤ st.cur.length →
      (chrOp st b).chain = st.chain ++ [st.cur] ∧ (chrOp st b).cur = [b]) ∧
    (strOp st s).sinkOut = st.sinkOut ∧
    totalBuf (strOp st s) = totalBuf st ++ s ∧
    (nlOp st).sinkOut = st.sinkOut ∧
    totalBuf (nlOp st) = totalBuf st ++ [10] ∧
    (launchOp st).mode = st.mode &&& NOT_HOLD ∧
    (st.mode = 2 → (launchOp st).sinkOut = st.sinkOut) ∧
    (st.mode = 3 → st.eof = false → (∀ i, SIZE ≤ st.fwRet i) →
      st.ffRet 0 = true → st.cur.length ≤ SIZE →
      (launchOp st).sinkOut = st.sinkOut ++ totalBuf st ∧
      totalBuf (launchOp st) = []) := by
  obtain ⟨hc1, hc2, -, -, -⟩ := chrOp_hold st b hh
  obtain ⟨hs1, hs2, -⟩ := strOp_hold st s hh
  obtain ⟨hn1, hn2, -⟩ := nlOp_hold st hh
  refine ⟨hc1, hc2, ?_, hs1, hs2, hn1, hn2, ?_, ?_, ?_⟩
  · intro hfull
    unfold chrOp
    rw [if_pos hfull, nextBuf_hold st hh]
    exact ⟨rfl, rfl⟩
  · unfold launchOp
    rw [if_pos hh]
    unfold checkFlush
    by_cases hm : st.mode &&& NOT_HOLD = 1
    · rw [if_pos hm]
      unfold flushOut
      by_cases hd : st.chain = [] ∧ st.cur = []
      · rw [if_pos hd]
      · rw [if_neg hd]
        by_cases heof : st.eof = true
        · rw [if_pos heof]
        · rw [if_neg heof]
    · rw [if_neg hm]
  · intro hm2
    unfold launchOp
    rw [if_pos hh]
    unfold checkFlush
    rw [if_neg (show ¬ st.mode &&& NOT_HOLD = 1 by rw [hm2]; decide)]
  · intro hm3 heof hwrites hffl hclen
    unfold launchOp
    rw [if_pos hh]
    unfold checkFlush
    rw [if_pos (show st.mode &&& NOT_HOLD = 1 by rw [hm3]; decide)]
    obtain ⟨hA, -, hB, hC⟩ :=
      flushOut_ok { st with mode := st.mode &&& NOT_HOLD } heof hwrites hffl hclen
    refine ⟨hA, ?_⟩
    rw [totalBuf, hB, hC]
    rfl

/-- Counterexample for C4 as stated: a writer holding one buffered byte
with `mode = HOLD` (not line-buffered) and a perfectly healthy sink: the
claim says `launch()` flushes the pending data, but the code only calls
`check_flush()`, which does nothing because the remaining mode `0` is not
exactly `FLUSH`; the byte stays buffered and the sink receives nothing. -/
theorem launch_hold_only_counterexample :
    holdOnlyState.mode &&& 2 ≠ 0 ∧
    totalBuf holdOnlyState = [65] ∧
    (launchOp holdOnlyState).mode &&& 2 = 0 ∧
    (launchOp holdOnlyState).sinkOut = [] ∧
    totalBuf (launchOp holdOnlyState) = [65] := by
  refine ⟨by decide, rfl, ?_, ?_, ?_⟩ <;> rfl

/-- Witness for C4 at the same held writer. -/
theorem hold_suppresses_flush_launch_witness :
    holdOnlyState.mode &&& 2 ≠ 0 ∧
      ((chrOp holdOnlyState 66).sinkOut = holdOnlyState.sinkOut ∧
       totalBuf (chrOp holdOnlyState 66) = totalBuf holdOnlyState ++ [66]) := by
  have h := hold_suppresses_flush_launch holdOnlyState 66 [] (by decide)
  exact ⟨by decide, h.1, h.2.1⟩

theorem mem_bitsRshift (C : Finset ℕ) (j : ℕ) :
    j ∈ bitsRshift C ↔ j + 1 ∈ C := by
  unfold bitsRshift
  constructor
  · intro h
    obtain ⟨x, hx, hxj⟩ := Finset.mem_image.mp h
    obtain ⟨hxne, hxC⟩ := Finset.mem_erase.mp hx
    have : x = j + 1 := by omega
    rwa [← this]
  · intro h
    exact Finset.mem_image.mpr ⟨j + 1, Finset.mem_erase.mpr ⟨by omega, h⟩, by omega⟩

theorem kOf_pos (C : Finset ℕ) : 1 ≤ kOf C :=
  (Nat.find_spec (show ∃ k, 1 ≤ k ∧ k ∉ C from
    ⟨C.sup id + 1, by
      refine ⟨by omega, fun hmem => ?_⟩
      have hle : id (C.sup id + 1) ≤ C.sup id := Finset.le_sup hmem
      simp only [id] at hle
      omega⟩)).1

theorem kOf_not_mem (C : Finset ℕ) : kOf C ∉ C :=
  (Nat.find_spec (show ∃ k, 1 ≤ k ∧ k ∉ C from
    ⟨C.sup id + 1, by
      refine ⟨by omega, fun hmem => ?_⟩
      have hle : id (C.sup id + 1) ≤ C.sup id := Finset.le_sup hmem
      simp only [id] at hle
      omega⟩)).2

theorem kOf_mem (C : Finset ℕ) (j : ℕ) (h1 : 1 ≤ j) (h2 : j < kOf C) : j ∈ C := by
  have := Nat.find_min (show ∃ k, 1 ≤ k ∧ k ∉ C from
    ⟨C.sup id + 1, by
      refine ⟨by omega, fun hmem => ?_⟩
      have hle : id (C.sup id + 1) ≤ C.sup id := Finset.le_sup hmem
      simp only [id] at hle
      omega⟩) h2
  by_contra hmem
  exact this ⟨h1, hmem⟩

theorem kOf_eq_one (C : Finset ℕ) (h : 1 ∉ C) : kOf C = 1 := by
  have h1 := kOf_pos C
  by_contra hne
  exact h (kOf_mem C 1 (le_refl 1) (by omega))

theorem kOf_ge_two (C : Finset ℕ) (h : 1 ∈ C) : 2 ≤ kOf C := by
  have h1 := kOf_pos C
  have h2 := kOf_not_mem C
  by_contra hlt
  have he : kOf C = 1 := by omega
  rw [he] at h2
  exact h2 h

theorem le_kOf (C : Finset ℕ) (n : ℕ) (h : ∀ m, m < n → 1 ≤ m → m ∈ C) :
    n ≤ kOf C := by
  unfold kOf
  rw [Nat.le_find_iff]
  intro m hm
  rintro ⟨hm1, hmem⟩
  exact hmem (h m hm hm1)

theorem kOf_bitsRshift (C : Finset ℕ) (h : 1 ∈ C) :
    kOf (bitsRshift C) = kOf C - 1 := by
  have h2 := kOf_ge_two C h
  apply le_antisymm
  · apply Nat.find_le
    refine ⟨by omega, fun hmem => ?_⟩
    rw [mem_bitsRshift] at hmem
    have : kOf C - 1 + 1 = kOf C := by omega
    rw [this] at hmem
    exact kOf_not_mem C hmem
  · apply le_kOf
    intro m hm hm1
    exact (mem_bitsRshift C m).mpr (kOf_mem C (m + 1) (by omega) (by omega))

theorem mem_shiftK (C : Finset ℕ) (k j : ℕ) :
    j ∈ shiftK C k ↔ j + k ∈ C := by
  unfold shiftK
  constructor
  · intro h
    obtain ⟨x, hx, hxj⟩ := Finset.mem_image.mp h
    obtain ⟨hxC, hxk⟩ := Finset.mem_filter.mp hx
    have : x = j + k := by omega
    rwa [← this]
  · intro h
    exact Finset.mem_image.mpr
      ⟨j + k, Finset.mem_filter.mpr ⟨h, by omega⟩, by omega⟩

theorem shiftK_card (C : Finset ℕ) (k : ℕ) : (shiftK C k).card ≤ C.card :=
  le_trans (Finset.card_image_le) (Finset.card_filter_le _ _)

theorem bitsRshift_eq_shiftK_one (C : Finset ℕ) : bitsRshift C = shiftK C 1 := by
  ext j
  rw [mem_bitsRshift, mem_shiftK]

theorem shiftK_bitsRshift (C : Finset ℕ) (k : ℕ) :
    shiftK (bitsRshift C) k = shiftK C (k + 1) := by
  ext j
  rw [mem_shiftK, mem_bitsRshift, mem_shiftK]
  constructor
  · intro h; have : j + k + 1 = j + (k + 1) := by omega
    rwa [this] at h
  · intro h; have : j + k + 1 = j + (k + 1) := by omega
    rwa [this]

theorem advanceLoop_spec : ∀ (n : ℕ) (C : Finset ℕ) (last : ℕ), kOf C ≤ n →
    advanceLoop last C = ((last + kOf C) % 2 ^ 64, shiftK C (kOf C)) := by
  intro n
  induction n with
  | zero => intro C last h; have := kOf_pos C; omega
  | succ n ih =>
    intro C last h
    by_cases h1 : 1 ∈ C
    · have hmem : 0 ∈ bitsRshift C := (mem_bitsRshift C 0).mpr (by simpa using h1)
      rw [advanceLoop, dif_pos hmem]
      have hk2 := kOf_ge_two C h1
      have hrec := ih (bitsRshift C) ((last + 1) % 2 ^ 64)
        (by rw [kOf_bitsRshift C h1]; omega)
      rw [hrec, kOf_bitsRshift C h1, shiftK_bitsRshift]
      have e1 : kOf C - 1 + 1 = kOf C := by omega
      rw [e1]
      have e2 : ((last + 1) % 2 ^ 64 + (kOf C - 1)) % 2 ^ 64 =
          (last + kOf C) % 2 ^ 64 := by
        rw [Nat.mod_add_mod]
        have : last + 1 + (kOf C - 1) = last + kOf C := by omega
        rw [this]
      rw [e2]
    · have hmem : 0 ∉ bitsRshift C := fun hc =>
        h1 (by simpa using (mem_bitsRshift C 0).mp hc)
      rw [advanceLoop, dif_neg hmem, kOf_eq_one C h1, bitsRshift_eq_shiftK_one]

theorem advanceLoop_eq (C : Finset ℕ) (last : ℕ) :
    advanceLoop last C = ((last + kOf C) % 2 ^ 64, shiftK C (kOf C)) :=
  advanceLoop_spec (kOf C) C last (le_refl _)

theorem kOf_le_card (C : Finset ℕ) : kOf C ≤ C.card + 1 := by
  have hsub : Finset.Ico 1 (kOf C) ⊆ C := by
    intro j hj
    obtain ⟨hj1, hj2⟩ := Finset.mem_Ico.mp hj
    exact kOf_mem C j hj1 hj2
  have := Finset.card_le_card hsub
  rw [Nat.card_Ico] at this
  omega

theorem zero_not_mem_shiftK_kOf (C : Finset ℕ) : 0 ∉ shiftK C (kOf C) := by
  rw [mem_shiftK]
  simpa using kOf_not_mem C

theorem szSub_ne_zero (a b : ℕ) (ha : a < 2 ^ 64) (hb : b < 2 ^ 64)
    (hne : a ≠ b) : szSub a b ≠ 0 := by
  unfold szSub
  omega

theorem syncStep_inv (st : SyncSt) (op : SyncOp) (t : ℕ)
    (hst : SyncInv t st) (hop : opSlot op < 2 ^ 64)
    (hbig : (t + 1) * (t + 2) < STOP) :
    SyncInv (t + 1) (syncStep st op) ∧
    ((syncStep st op).last = STOP ∨ st.last ≤ (syncStep st op).last) := by
  obtain ⟨L, C⟩ := st
  obtain ⟨h0, hcard, hlast⟩ := hst
  simp only at h0 hcard hlast
  unfold SyncInv
  cases op with
  | acquire s =>
    dsimp only [syncStep]
    refine ⟨⟨h0, by omega, ?_⟩, Or.inr (le_refl _)⟩
    rcases hlast with h | h
    · exact Or.inl h
    · right; nlinarith
  | cancel =>
    dsimp only [syncStep]
    exact ⟨⟨h0, by omega, Or.inl rfl⟩, Or.inl rfl⟩
  | finish slot =>
    dsimp only [syncStep, finishFull, opSlot] at hop ⊢
    by_cases hstop : L = STOP
    · rw [if_pos hstop]
      dsimp only
      exact ⟨⟨h0, by omega, Or.inl hstop⟩, Or.inl hstop⟩
    · rw [if_neg hstop]
      have hlastle : L ≤ t * t + t := by
        rcases hlast with h | h
        · exact absurd h hstop
        · exact h
      by_cases hslot : slot = L
      · rw [if_pos hslot, advanceLoop_eq]
        dsimp only
        have hk := kOf_le_card C
        have hkb : kOf C ≤ t + 1 := by omega
        have hk1 := kOf_pos C
        have hsum : L + kOf C ≤ (t + 1) * (t + 2) := by nlinarith
        have hS : STOP < 2 ^ 64 := by unfold STOP; norm_num
        have hmod : (L + kOf C) % 2 ^ 64 = L + kOf C := by
          apply Nat.mod_eq_of_lt
          omega
        rw [hmod]
        refine ⟨⟨zero_not_mem_shiftK_kOf C,
          le_trans (shiftK_card C _) (by omega), ?_⟩, ?_⟩
        · right; nlinarith
        · right; omega
      · rw [if_neg hslot]
        dsimp only
        refine ⟨⟨?_, le_trans (Finset.card_insert_le _ _) (by omega), ?_⟩,
          Or.inr (le_refl _)⟩
        · rw [Finset.mem_insert]
          rintro (h | h)
          · have hS : STOP < 2 ^ 64 := by unfold STOP; norm_num
            have hlt : L < 2 ^ 64 := by nlinarith
            exact szSub_ne_zero slot L hop hlt hslot h.symm
          · exact h0 h
        · rcases hlast with h | h
          · exact Or.inl h
          · right; nlinarith

theorem syncRun_inv : ∀ (l : List SyncOp) (st : SyncSt) (t : ℕ),
    SyncInv t st → (∀ op ∈ l, opSlot op < 2 ^ 64) →
    ((t + l.length) * (t + l.length + 1) < STOP) →
    SyncInv (t + l.length) (syncRun st l) := by
  intro l
  induction l with
  | nil => intro st t h _ _; simpa [syncRun] using h
  | cons op rest ih =>
    intro st t h hops hbig
    have hop : opSlot op < 2 ^ 64 := hops op (by simp)
    have hbig1 : (t + 1) * (t + 2) < STOP := by
      have hle : (t + 1) * (t + 2) ≤
          (t + (rest.length + 1)) * (t + (rest.length + 1) + 1) := by nlinarith
      simpa using lt_of_le_of_lt hle (by simpa using hbig)
    have hstep := (syncStep_inv st op t h hop hbig1).1
    have := ih (syncStep st op) (t + 1) hstep
      (fun o ho => hops o (by simp [ho]))
      (by
        have he : t + 1 + rest.length = t + (rest.length + 1) := by omega
        rw [he]
        simpa using hbig)
    have he : t + 1 + rest.length = t + (rest.length + 1) := by omega
    rw [he] at this
    simpa [syncRun] using this

/-- C1: in ORDERED mode, along any sequence of acquire/finish/cancel calls
(with `size_t` slot arguments and any feasible trace length): `last` never
decreases except when set to the cancel sentinel; the `completed` bitset
only records offsets ≥ 1, i.e. slots strictly greater than `last`; and a
`finish(slot)` call with `slot == last ≠ STOP` advances `last` past the
whole contiguous run of already-finished later slots (by the least offset
`k ≥ 1` whose bit is clear) while shifting the bitset, leaving bit 0
clear. -/
theorem ordered_sync_invariants (ops : List SyncOp)
    (hslots : ∀ op ∈ ops, opSlot op < 2 ^ 64)
    (hlen : ops.length * (ops.length + 1) < STOP) :
    (∀ pre suf : List SyncOp, ops = pre ++ suf →
      0 ∉ (syncRun sync0 pre).completed) ∧
    (∀ (pre suf : List SyncOp) (op : SyncOp), ops = pre ++ op :: suf →
      ((syncStep (syncRun sync0 pre) op).last = STOP ∨
       (syncRun sync0 pre).last ≤ (syncStep (syncRun sync0 pre) op).last)) ∧
    (∀ (pre suf : List SyncOp) (slot : ℕ), ops = pre ++ SyncOp.finish slot :: suf →
      (syncRun sync0 pre).last = slot → slot ≠ STOP →
      ∃ k, 1 ≤ k ∧
        (∀ j, 1 ≤ j → j < k → j ∈ (syncRun sync0 pre).completed) ∧
        k ∉ (syncRun sync0 pre).completed ∧
        (syncStep (syncRun sync0 pre) (SyncOp.finish slot)).last = slot + k ∧
        0 ∉ (syncStep (syncRun sync0 pre) (SyncOp.finish slot)).completed) := by
  have inv0 : SyncInv 0 sync0 := ⟨by simp [sync0], by simp [sync0], Or.inr (by simp [sync0])⟩
  have hpre : ∀ pre suf : List SyncOp, ops = pre ++ suf →
      SyncInv pre.length (syncRun sync0 pre) := by
    intro pre suf heq
    have hlenp : pre.length ≤ ops.length := by
      rw [heq, List.length_append]; omega
    have := syncRun_inv pre sync0 0 inv0
      (fun o ho => hslots o (by rw [heq]; exact List.mem_append_left _ ho))
      (by
        have hmul : pre.length * (pre.length + 1) ≤ ops.length * (ops.length + 1) := by
          nlinarith
        have h0p : (0 + pre.length) * (0 + pre.length + 1) =
            pre.length * (pre.length + 1) := by ring_nf
        rw [h0p]
        omega)
    simpa using this
  refine ⟨?_, ?_, ?_⟩
  · intro pre suf heq
    exact (hpre pre suf heq).1
  · intro pre suf op heq
    have hinv := hpre pre (op :: suf) heq
    have hop : opSlot op < 2 ^ 64 := hslots op (by rw [heq]; simp)
    have hbig : (pre.length + 1) * (pre.length + 2) < STOP := by
      have hl : pre.length + 1 ≤ ops.length := by
        rw [heq, List.length_append]; simp
      have : (pre.length + 1) * (pre.length + 2) ≤ ops.length * (ops.length + 1) := by
        nlinarith
      omega
    exact (syncStep_inv _ op pre.length hinv hop hbig).2
  · intro pre suf slot heq hsl hstop
    have hinv := hpre pre (SyncOp.finish slot :: suf) heq
    obtain ⟨h0, hcard, hlast⟩ := hinv
    have hlast' : (syncRun sync0 pre).last ≤ pre.length * (pre.length + 1) := by
      rcases hlast with h | h
      · rw [hsl] at h; exact absurd h hstop
      · exact h
    have hbig : (pre.length + 1) * (pre.length + 2) < STOP := by
      have hl : pre.length + 1 ≤ ops.length := by
        rw [heq, List.length_append]; simp
      have : (pre.length + 1) * (pre.length + 2) ≤ ops.length * (ops.length + 1) := by
        nlinarith
      omega
    refine ⟨kOf (syncRun sync0 pre).completed, kOf_pos _, kOf_mem _, kOf_not_mem _, ?_, ?_⟩
    · simp only [syncStep, finishFull]
      rw [if_neg (by rw [hsl]; exact hstop), if_pos hsl.symm, advanceLoop_eq]
      dsimp only
      have hk := kOf_le_card (syncRun sync0 pre).completed
      have hmod : ((syncRun sync0 pre).last + kOf (syncRun sync0 pre).completed) % 2 ^ 64 =
          (syncRun sync0 pre).last + kOf (syncRun sync0 pre).completed := by
        apply Nat.mod_eq_of_lt
        have hS : STOP < 2 ^ 64 := by unfold STOP; norm_num
        nlinarith
      rw [hmod, hsl]
    · simp only [syncStep, finishFull]
      rw [if_neg (by rw [hsl]; exact hstop), if_pos hsl.symm, advanceLoop_eq]
      dsimp only
      exact zero_not_mem_shiftK_kOf (syncRun sync0 pre).completed

/-- Witness for C1 on the trace `finish 1; finish 0; cancel` from the
initial state. -/
theorem ordered_sync_invariants_witness :
    (∀ op ∈ [SyncOp.finish 1, SyncOp.finish 0, SyncOp.cancel], opSlot op < 2 ^ 64) ∧
    ([SyncOp.finish 1, SyncOp.finish 0, SyncOp.cancel].length *
      ([SyncOp.finish 1, SyncOp.finish 0, SyncOp.cancel].length + 1) < STOP) ∧
    ((∀ pre suf : List SyncOp,
        [SyncOp.finish 1, SyncOp.finish 0, SyncOp.cancel] = pre ++ suf →
        0 ∉ (syncRun sync0 pre).completed) ∧
     (∀ (pre suf : List SyncOp) (op : SyncOp),
        [SyncOp.finish 1, SyncOp.finish 0, SyncOp.cancel] = pre ++ op :: suf →
        ((syncStep (syncRun sync0 pre) op).last = STOP ∨
         (syncRun sync0 pre).last ≤ (syncStep (syncRun sync0 pre) op).last)) ∧
     (∀ (pre suf : List SyncOp) (slot : ℕ),
        [SyncOp.finish 1, SyncOp.finish 0, SyncOp.cancel] =
          pre ++ SyncOp.finish slot :: suf →
        (syncRun sync0 pre).last = slot → slot ≠ STOP →
        ∃ k, 1 ≤ k ∧
          (∀ j, 1 ≤ j → j < k → j ∈ (syncRun sync0 pre).completed) ∧
          k ∉ (syncRun sync0 pre).completed ∧
          (syncStep (syncRun sync0 pre) (SyncOp.finish slot)).last = slot + k ∧
          0 ∉ (syncStep (syncRun sync0 pre) (SyncOp.finish slot)).completed)) := by
  refine ⟨?_, ?_, ordered_sync_invariants _ ?_ ?_⟩
  · intro op hop
    simp only [List.mem_cons, List.not_mem_nil, or_false] at hop
    rcases hop with rfl | rfl | rfl <;> norm_num [opSlot]
  · unfold STOP; norm_num
  · intro op hop
    simp only [List.mem_cons, List.not_mem_nil, or_false] at hop
    rcases hop with rfl | rfl | rfl <;> norm_num [opSlot]
  · unfold STOP; norm_num

theorem syncStep_preserves_stop (st : SyncSt) (op : SyncOp)
    (h : st.last = STOP) : (syncStep st op).last = STOP := by
  cases op with
  | acquire s => exact h
  | cancel => rfl
  | finish slot =>
    simp only [syncStep, finishFull, if_pos h]
    exact h

/-- C5: cancellation of the ORDERED synchronizer is absorbing: once `last`
is the `STOP` sentinel, `cancelled()` is true in that state and in every
state reachable by further acquire/finish/cancel calls (no transition sets
`last` back to a non-sentinel value), `acquire` never enters its wait loop
for any slot, and every `finish` call releases a held lock and broadcasts
instead of advancing `last` or recording a completion bit. -/
theorem sync_cancel_absorbing (st : SyncSt) (h : st.last = STOP) :
    syncCancelled st ∧
    (∀ ops : List SyncOp, (syncRun st ops).last = STOP ∧
      syncCancelled (syncRun st ops)) ∧
    (∀ (owns : Bool) (slot : ℕ), acquireWaits st owns slot = false) ∧
    (∀ (owns : Bool) (slot : ℕ), finishFull st owns slot = (st, false, true)) := by
  have habs : ∀ ops : List SyncOp, (syncRun st ops).last = STOP := by
    intro ops
    induction ops generalizing st with
    | nil => exact h
    | cons op rest ih =>
      have h1 := syncStep_preserves_stop st op h
      simpa [syncRun] using ih (syncStep st op) h1
  refine ⟨h, fun ops => ⟨habs ops, habs ops⟩, ?_, ?_⟩
  · intro owns slot
    simp [acquireWaits, h]
  · intro owns slot
    simp only [finishFull, if_pos h]

/-- Witness for C5 at the concrete cancelled state. -/
theorem sync_cancel_absorbing_witness :
    ({ last := STOP, completed := ∅ } : SyncSt).last = STOP ∧
    (syncCancelled { last := STOP, completed := ∅ } ∧
     (∀ ops : List SyncOp,
        (syncRun { last := STOP, completed := ∅ } ops).last = STOP ∧
        syncCancelled (syncRun { last := STOP, completed := ∅ } ops)) ∧
     (∀ (owns : Bool) (slot : ℕ),
        acquireWaits { last := STOP, completed := ∅ } owns slot = false) ∧
     (∀ (owns : Bool) (slot : ℕ),
        finishFull { last := STOP, completed := ∅ } owns slot =
          ({ last := STOP, completed := ∅ }, false, true))) :=
  ⟨rfl, sync_cancel_absorbing _ rfl⟩

theorem abcOK_congr (f g : ℕ → Bool) (h0 : g 0 = f 0) (h1 : g 1 = f 1)
    (h3 : g 3 = f 3) (hf : abcOK f) : abcOK g := by
  obtain ⟨a1, a2, a3⟩ := hf
  rw [abcOK, h0, h1, h3]
  exact ⟨a1, a2, a3⟩

theorem digOK_congr (f g : ℕ → Bool) (h17 : g 17 = f 17) (h18 : g 18 = f 18)
    (hd : ∀ i ∈ digIdx, g i = f i) (hf : digOK f) : digOK g := by
  obtain ⟨d1, d2, d3⟩ := hf
  refine ⟨?_, ?_, ?_⟩
  · intro i hi j hj hgi hgj
    exact d1 i hi j hj (by rw [← hd i hi]; exact hgi) (by rw [← hd j hj]; exact hgj)
  · intro i hi hgi
    rw [h17, h18]
    exact d2 i hi (by rw [← hd i hi]; exact hgi)
  · rw [h17, h18]
    exact d3

theorem goodFlags_congr (f g : ℕ → Bool) (h : ∀ j ∈ relIdx, g j = f j)
    (hf : goodFlags f) : goodFlags g := by
  refine ⟨abcOK_congr f g (h 0 (by decide)) (h 1 (by decide)) (h 3 (by decide)) hf.1,
    digOK_congr f g (h 17 (by decide)) (h 18 (by decide)) ?_ hf.2⟩
  intro i hi
  refine h i ?_
  fin_cases hi <;> decide

theorem goodFlags_update_false (f : ℕ → Bool) (i : ℕ) (h17 : i ≠ 17) (h18 : i ≠ 18)
    (hf : goodFlags f) : goodFlags (Function.update f i false) := by
  obtain ⟨⟨a1, a2, a3⟩, d1, d2, d3⟩ := hf
  have hmono : ∀ x, Function.update f i false x = true → f x = true := by
    intro x hx
    rw [Function.update_apply] at hx
    by_cases hxi : x = i
    · rw [if_pos hxi] at hx
      exact absurd hx (by simp)
    · rwa [if_neg hxi] at hx
  have h17e : Function.update f i false 17 = f 17 := by
    rw [Function.update_apply, if_neg (fun hc => h17 hc.symm)]
  have h18e : Function.update f i false 18 = f 18 := by
    rw [Function.update_apply, if_neg (fun hc => h18 hc.symm)]
  refine ⟨⟨?_, ?_, ?_⟩, ?_, ?_, ?_⟩
  · rintro ⟨hx, hy⟩
    exact a1 ⟨hmono _ hx, hmono _ hy⟩
  · rintro ⟨hx, hy⟩
    exact a2 ⟨hmono _ hx, hmono _ hy⟩
  · rintro ⟨hx, hy⟩
    exact a3 ⟨hmono _ hx, hmono _ hy⟩
  · intro a ha j hj hga hgj
    exact d1 a ha j hj (hmono _ hga) (hmono _ hgj)
  · intro a ha hga
    rw [h17e, h18e]
    exact d2 a ha (hmono _ hga)
  · rw [h17e, h18e]
    exact d3

theorem digit_on_good (f : ℕ → Bool) (d : ℕ) (hd : d ∈ digIdx) (hf : digOK f) :
    digOK (Function.update
      (if clearDigits f 17 = false ∧ clearDigits f 18 = false
       then Function.update (clearDigits f) 17 true else clearDigits f) d true) := by
  have hdr : 31 ≤ d ∧ d ≤ 39 := by fin_cases hd <;> decide
  have hC17 : clearDigits f 17 = f 17 := by
    simp [clearDigits, Function.update_apply]
  have hC18 : clearDigits f 18 = f 18 := by
    simp [clearDigits, Function.update_apply]
  have hCdig : ∀ i ∈ digIdx, clearDigits f i = false := by
    intro i hi
    fin_cases hi <;> simp [clearDigits, Function.update_apply]
  have hg1dig : ∀ i ∈ digIdx,
      (if clearDigits f 17 = false ∧ clearDigits f 18 = false
       then Function.update (clearDigits f) 17 true else clearDigits f) i = false := by
    intro i hi
    have hir : 31 ≤ i ∧ i ≤ 39 := by fin_cases hi <;> decide
    split_ifs with hc
    · rw [Function.update_apply, if_neg (by omega)]
      exact hCdig i hi
    · exact hCdig i hi
  refine ⟨?_, ?_, ?_⟩
  · intro i hi j hj hgi hgj
    by_cases hid : i = d
    · by_cases hjd : j = d
      · rw [hid, hjd]
      · rw [Function.update_apply, if_neg hjd, hg1dig j hj] at hgj
        exact absurd hgj (by simp)
    · rw [Function.update_apply, if_neg hid, hg1dig i hi] at hgi
      exact absurd hgi (by simp)
  · intro i hi hgi
    have h17d : (17 : ℕ) ≠ d := by omega
    have h18d : (18 : ℕ) ≠ d := by omega
    rw [Function.update_apply, if_neg h17d, Function.update_apply, if_neg h18d]
    split_ifs with hc
    · left
      rw [Function.update_apply, if_pos rfl]
    · rw [hC17, hC18]
      rcases hc2 : f 17 with - | -
      · rcases hc3 : f 18 with - | -
        · exact absurd ⟨by rw [hC17]; exact hc2, by rw [hC18]; exact hc3⟩ hc
        · exact Or.inr rfl
      · exact Or.inl rfl
  · have h17d : (17 : ℕ) ≠ d := by omega
    have h18d : (18 : ℕ) ≠ d := by omega
    rw [Function.update_apply, if_neg h17d, Function.update_apply, if_neg h18d]
    split_ifs with hc
    · rintro ⟨-, hx⟩
      rw [Function.update_apply, if_neg (by decide), hC18] at hx
      rw [hC18] at hc
      rw [hc.2] at hx
      exact absurd hx (by simp)
    · rw [hC17, hC18]
      exact hf.2.2

theorem keyIdx_cases (key idx : ℕ) (h : keyIdx key = some idx) :
    (key = 65 ∧ idx = 0) ∨
    (key = 66 ∧ idx = 1) ∨
    (key = 98 ∧ idx = 2) ∨
    (key = 67 ∧ idx = 3) ∨
    (key = 99 ∧ idx = 4) ∨
    (key = 70 ∧ idx = 5) ∨
    (key = 71 ∧ idx = 6) ∨
    (key = 72 ∧ idx = 7) ∨
    (key = 104 ∧ idx = 8) ∨
    (key = 73 ∧ idx = 9) ∨
    (key = 105 ∧ idx = 10) ∨
    (key = 106 ∧ idx = 11) ∨
    (key = 107 ∧ idx = 12) ∨
    (key = 108 ∧ idx = 13) ∨
    (key = 110 ∧ idx = 14) ∨
    (key = 111 ∧ idx = 15) ∨
    (key = 80 ∧ idx = 16) ∨
    (key = 82 ∧ idx = 17) ∨
    (key = 114 ∧ idx = 18) ∨
    (key = 84 ∧ idx = 19) ∨
    (key = 85 ∧ idx = 20) ∨
    (key = 117 ∧ idx = 21) ∨
    (key = 118 ∧ idx = 22) ∨
    (key = 87 ∧ idx = 23) ∨
    (key = 119 ∧ idx = 24) ∨
    (key = 88 ∧ idx = 25) ∨
    (key = 120 ∧ idx = 26) ∨
    (key = 89 ∧ idx = 27) ∨
    (key = 121 ∧ idx = 28) ∨
    (key = 122 ∧ idx = 29) ∨
    (key = 48 ∧ idx = 30) ∨
    (key = 49 ∧ idx = 31) ∨
    (key = 50 ∧ idx = 32) ∨
    (key = 51 ∧ idx = 33) ∨
    (key = 52 ∧ idx = 34) ∨
    (key = 53 ∧ idx = 35) ∨
    (key = 54 ∧ idx = 36) ∨
    (key = 55 ∧ idx = 37) ∨
    (key = 56 ∧ idx = 38) ∨
    (key = 57 ∧ idx = 39) ∨
    (key = 46 ∧ idx = 40) ∨
    (key = 43 ∧ idx = 41) ∨
    (key = 35 ∧ idx = 42) ∨
    (key = 36 ∧ idx = 43) ∨
    (key = 64 ∧ idx = 44) ∨
    (key = 94 ∧ idx = 45) := by
  unfold keyIdx at h
  by_cases h0 : key = 65
  · rw [if_pos h0] at h
    exact Or.inl ⟨h0, (Option.some.inj h).symm⟩
  rw [if_neg h0] at h
  by_cases h1 : key = 66
  · rw [if_pos h1] at h
    exact Or.inr (Or.inl ⟨h1, (Option.some.inj h).symm⟩)
  rw [if_neg h1] at h
  by_cases h2 : key = 98
  · rw [if_pos h2] at h
    exact Or.inr (Or.inr (Or.inl ⟨h2, (Option.some.inj h).symm⟩))
  rw [if_neg h2] at h
  by_cases h3 : key = 67
  · rw [if_pos h3] at h
    exact Or.inr (Or.inr (Or.inr (Or.inl ⟨h3, (Option.some.inj h).symm⟩)))
  rw [if_neg h3] at h
  by_cases h4 : key = 99
  · rw [if_pos h4] at h
    exact Or.inr (Or.inr (Or.inr (Or.inr (Or.inl ⟨h4, (Option.some.inj h).symm⟩))))
  rw [if_neg h4] at h
  by_cases h5 : key = 70
  · rw [if_pos h5] at h
    exact Or.inr (Or.inr (Or.inr (Or.inr (Or.inr (Or.inl ⟨h5, (Option.some.inj h).symm⟩)))))
  rw [if_neg h5] at h
  by_cases h6 : key = 71
  · rw [if_pos h6] at h
    exact Or.inr (Or.inr (Or.inr (Or.inr (Or.inr (Or.inr (Or.inl ⟨h6, (Option.some.inj h).symm⟩))))))
  rw [if_neg h6] at h
  by_cases h7 : key = 72
  · rw [if_pos h7] at h
    exact Or.inr (Or.inr (Or.inr (Or.inr (Or.inr (Or.inr (Or.inr (Or.inl ⟨h7, (Option.some.inj h).symm⟩)))))))
  rw [if_neg h7] at h
  by_cases h8 : key = 104
  · rw [if_pos h8] at h
    exact Or.inr (Or.inr (Or.inr (Or.inr (Or.inr (Or.inr (Or.inr (Or.inr (Or.inl ⟨h8, (Option.some.inj h).symm⟩))))))))
  rw [if_neg h8] at h
  by_cases h9 : key = 73
  · rw [if_pos h9] at h
    exact Or.inr (Or.inr (Or.inr (Or.inr (Or.inr (Or.inr (Or.inr (Or.inr (Or.inr (Or.inl ⟨h9, (Option.some.inj h).symm⟩)))))))))
  rw [if_neg h9] at h
  by_cases h10 : key = 105
  · rw [if_pos h10] at h
    exact Or.inr (Or.inr (Or.inr (Or.inr (Or.inr (Or.inr (Or.inr (Or.inr (Or.inr (Or.inr (Or.inl ⟨h10, (Option.some.inj h).symm⟩))))))))))
  rw [if_neg h10] at h
  by_cases h11 : key = 106
  · rw [if_pos h11] at h
    exact Or.inr (Or.inr (Or.inr (Or.inr (Or.inr (Or.inr (Or.inr (Or.inr (Or.inr (Or.inr (Or.inr (Or.inl ⟨h11, (Option.some.inj h).symm⟩)))))))))))
  rw [if_neg h11] at h
  by_cases h12 : key = 107
  · rw [if_pos h12] at h
    exact Or.inr (Or.inr (Or.inr (Or.inr (Or.inr (Or.inr (Or.inr (Or.inr (Or.inr (Or.inr (Or.inr (Or.inr (Or.inl ⟨h12, (Option.some.inj h).symm⟩))))))))))))
  rw [if_neg h12] at h
  by_cases h13 : key = 108
  · rw [if_pos h13] at h
    exact Or.inr (Or.inr (Or.inr (Or.inr (Or.inr (Or.inr (Or.inr (Or.inr (Or.inr (Or.inr (Or.inr (Or.inr (Or.inr (Or.inl ⟨h13, (Option.some.inj h).symm⟩)))))))))))))
  rw [if_neg h13] at h
  by_cases h14 : key = 110
  · rw [if_pos h14] at h
    exact Or.inr (Or.inr (Or.inr (Or.inr (Or.inr (Or.inr (Or.inr (Or.inr (Or.inr (Or.inr (Or.inr (Or.inr (Or.inr (Or.inr (Or.inl ⟨h14, (Option.some.inj h).symm⟩))))))))))))))
  rw [if_neg h14] at h
  by_cases h15 : key = 111
  · rw [if_pos h15] at h
    exact Or.inr (Or.inr (Or.inr (Or.inr (Or.inr (Or.inr (Or.inr (Or.inr (Or.inr (Or.inr (Or.inr (Or.inr (Or.inr (Or.inr (Or.inr (Or.inl ⟨h15, (Option.some.inj h).symm⟩)))))))))))))))
  rw [if_neg h15] at h
  by_cases h16 : key = 80
  · rw [if_pos h16] at h
    exact Or.inr (Or.inr (Or.inr (Or.inr (Or.inr (Or.inr (Or.inr (Or.inr (Or.inr (Or.inr (Or.inr (Or.inr (Or.inr (Or.inr (Or.inr (Or.inr (Or.inl ⟨h16, (Option.some.inj h).symm⟩))))))))))))))))
  rw [if_neg h16] at h
  by_cases h17 : key = 82
  · rw [if_pos h17] at h
    exact Or.inr (Or.inr (Or.inr (Or.inr (Or.inr (Or.inr (Or.inr (Or.inr (Or.inr (Or.inr (Or.inr (Or.inr (Or.inr (Or.inr (Or.inr (Or.inr (Or.inr (Or.inl ⟨h17, (Option.some.inj h).symm⟩)))))))))))))))))
  rw [if_neg h17] at h
  by_cases h18 : key = 114
  · rw [if_pos h18] at h
    exact Or.inr (Or.inr (Or.inr (Or.inr (Or.inr (Or.inr (Or.inr (Or.inr (Or.inr (Or.inr (Or.inr (Or.inr (Or.inr (Or.inr (Or.inr (Or.inr (Or.inr (Or.inr (Or.inl ⟨h18, (Option.some.inj h).symm⟩))))))))))))))))))
  rw [if_neg h18] at h
  by_cases h19 : key = 84
  · rw [if_pos h19] at h
    exact Or.inr (Or.inr (Or.inr (Or.inr (Or.inr (Or.inr (Or.inr (Or.inr (Or.inr (Or.inr (Or.inr (Or.inr (Or.inr (Or.inr (Or.inr (Or.inr (Or.inr (Or.inr (Or.inr (Or.inl ⟨h19, (Option.some.inj h).symm⟩)))))))))))))))))))
  rw [if_neg h19] at h
  by_cases h20 : key = 85
  · rw [if_pos h20] at h
    exact Or.inr (Or.inr (Or.inr (Or.inr (Or.inr (Or.inr (Or.inr (Or.inr (Or.inr (Or.inr (Or.inr (Or.inr (Or.inr (Or.inr (Or.inr (Or.inr (Or.inr (Or.inr (Or.inr (Or.inr (Or.inl ⟨h20, (Option.some.inj h).symm⟩))))))))))))))))))))
  rw [if_neg h20] at h
  by_cases h21 : key = 117
  · rw [if_pos h21] at h
    exact Or.inr (Or.inr (Or.inr (Or.inr (Or.inr (Or.inr (Or.inr (Or.inr (Or.inr (Or.inr (Or.inr (Or.inr (Or.inr (Or.inr (Or.inr (Or.inr (Or.inr (Or.inr (Or.inr (Or.inr (Or.inr (Or.inl ⟨h21, (Option.some.inj h).symm⟩)))))))))))))))))))))
  rw [if_neg h21] at h
  by_cases h22 : key = 118
  · rw [if_pos h22] at h
    exact Or.inr (Or.inr (Or.inr (Or.inr (Or.inr (Or.inr (Or.inr (Or.inr (Or.inr (Or.inr (Or.inr (Or.inr (Or.inr (Or.inr (Or.inr (Or.inr (Or.inr (Or.inr (Or.inr (Or.inr (Or.inr (Or.inr (Or.inl ⟨h22, (Option.some.inj h).symm⟩))))))))))))))))))))))
  rw [if_neg h22] at h
  by_cases h23 : key = 87
  · rw [if_pos h23] at h
    exact Or.inr (Or.inr (Or.inr (Or.inr (Or.inr (Or.inr (Or.inr (Or.inr (Or.inr (Or.inr (Or.inr (Or.inr (Or.inr (Or.inr (Or.inr (Or.inr (Or.inr (Or.inr (Or.inr (Or.inr (Or.inr (Or.inr (Or.inr (Or.inl ⟨h23, (Option.some.inj h).symm⟩)))))))))))))))))))))))
  rw [if_neg h23] at h
  by_cases h24 : key = 119
  · rw [if_pos h24] at h
    exact Or.inr (Or.inr (Or.inr (Or.inr (Or.inr (Or.inr (Or.inr (Or.inr (Or.inr (Or.inr (Or.inr (Or.inr (Or.inr (Or.inr (Or.inr (Or.inr (Or.inr (Or.inr (Or.inr (Or.inr (Or.inr (Or.inr (Or.inr (Or.inr (Or.inl ⟨h24, (Option.some.inj h).symm⟩))))))))))))))))))))))))
  rw [if_neg h24] at h
  by_cases h25 : key = 88
  · rw [if_pos h25] at h
    exact Or.inr (Or.inr (Or.inr (Or.inr (Or.inr (Or.inr (Or.inr (Or.inr (Or.inr (Or.inr (Or.inr (Or.inr (Or.inr (Or.inr (Or.inr (Or.inr (Or.inr (Or.inr (Or.inr (Or.inr (Or.inr (Or.inr (Or.inr (Or.inr (Or.inr (Or.inl ⟨h25, (Option.some.inj h).symm⟩)))))))))))))))))))))))))
  rw [if_neg h25] at h
  by_cases h26 : key = 120
  · rw [if_pos h26] at h
    exact Or.inr (Or.inr (Or.inr (Or.inr (Or.inr (Or.inr (Or.inr (Or.inr (Or.inr (Or.inr (Or.inr (Or.inr (Or.inr (Or.inr (Or.inr (Or.inr (Or.inr (Or.inr (Or.inr (Or.inr (Or.inr (Or.inr (Or.inr (Or.inr (Or.inr (Or.inr (Or.inl ⟨h26, (Option.some.inj h).symm⟩))))))))))))))))))))))))))
  rw [if_neg h26] at h
  by_cases h27 : key = 89
  · rw [if_pos h27] at h
    exact Or.inr (Or.inr (Or.inr (Or.inr (Or.inr (Or.inr (Or.inr (Or.inr (Or.inr (Or.inr (Or.inr (Or.inr (Or.inr (Or.inr (Or.inr (Or.inr (Or.inr (Or.inr (Or.inr (Or.inr (Or.inr (Or.inr (Or.inr (Or.inr (Or.inr (Or.inr (Or.inr (Or.inl ⟨h27, (Option.some.inj h).symm⟩)))))))))))))))))))))))))))
  rw [if_neg h27] at h
  by_cases h28 : key = 121
  · rw [if_pos h28] at h
    exact Or.inr (Or.inr (Or.inr (Or.inr (Or.inr (Or.inr (Or.inr (Or.inr (Or.inr (Or.inr (Or.inr (Or.inr (Or.inr (Or.inr (Or.inr (Or.inr (Or.inr (Or.inr (Or.inr (Or.inr (Or.inr (Or.inr (Or.inr (Or.inr (Or.inr (Or.inr (Or.inr (Or.inr (Or.inl ⟨h28, (Option.some.inj h).symm⟩))))))))))))))))))))))))))))
  rw [if_neg h28] at h
  by_cases h29 : key = 122
  · rw [if_pos h29] at h
    exact Or.inr (Or.inr (Or.inr (Or.inr (Or.inr (Or.inr (Or.inr (Or.inr (Or.inr (Or.inr (Or.inr (Or.inr (Or.inr (Or.inr (Or.inr (Or.inr (Or.inr (Or.inr (Or.inr (Or.inr (Or.inr (Or.inr (Or.inr (Or.inr (Or.inr (Or.inr (Or.inr (Or.inr (Or.inr (Or.inl ⟨h29, (Option.some.inj h).symm⟩)))))))))))))))))))))))))))))
  rw [if_neg h29] at h
  by_cases h30 : key = 48
  · rw [if_pos h30] at h
    exact Or.inr (Or.inr (Or.inr (Or.inr (Or.inr (Or.inr (Or.inr (Or.inr (Or.inr (Or.inr (Or.inr (Or.inr (Or.inr (Or.inr (Or.inr (Or.inr (Or.inr (Or.inr (Or.inr (Or.inr (Or.inr (Or.inr (Or.inr (Or.inr (Or.inr (Or.inr (Or.inr (Or.inr (Or.inr (Or.inr (Or.inl ⟨h30, (Option.some.inj h).symm⟩))))))))))))))))))))))))))))))
  rw [if_neg h30] at h
  by_cases h31 : key = 49
  · rw [if_pos h31] at h
    exact Or.inr (Or.inr (Or.inr (Or.inr (Or.inr (Or.inr (Or.inr (Or.inr (Or.inr (Or.inr (Or.inr (Or.inr (Or.inr (Or.inr (Or.inr (Or.inr (Or.inr (Or.inr (Or.inr (Or.inr (Or.inr (Or.inr (Or.inr (Or.inr (Or.inr (Or.inr (Or.inr (Or.inr (Or.inr (Or.inr (Or.inr (Or.inl ⟨h31, (Option.some.inj h).symm⟩)))))))))))))))))))))))))))))))
  rw [if_neg h31] at h
  by_cases h32 : key = 50
  · rw [if_pos h32] at h
    exact Or.inr (Or.inr (Or.inr (Or.inr (Or.inr (Or.inr (Or.inr (Or.inr (Or.inr (Or.inr (Or.inr (Or.inr (Or.inr (Or.inr (Or.inr (Or.inr (Or.inr (Or.inr (Or.inr (Or.inr (Or.inr (Or.inr (Or.inr (Or.inr (Or.inr (Or.inr (Or.inr (Or.inr (Or.inr (Or.inr (Or.inr (Or.inr (Or.inl ⟨h32, (Option.some.inj h).symm⟩))))))))))))))))))))))))))))))))
  rw [if_neg h32] at h
  by_cases h33 : key = 51
  · rw [if_pos h33] at h
    exact Or.inr (Or.inr (Or.inr (Or.inr (Or.inr (Or.inr (Or.inr (Or.inr (Or.inr (Or.inr (Or.inr (Or.inr (Or.inr (Or.inr (Or.inr (Or.inr (Or.inr (Or.inr (Or.inr (Or.inr (Or.inr (Or.inr (Or.inr (Or.inr (Or.inr (Or.inr (Or.inr (Or.inr (Or.inr (Or.inr (Or.inr (Or.inr (Or.inr (Or.inl ⟨h33, (Option.some.inj h).symm⟩)))))))))))))))))))))))))))))))))
  rw [if_neg h33] at h
  by_cases h34 : key = 52
  · rw [if_pos h34] at h
    exact Or.inr (Or.inr (Or.inr (Or.inr (Or.inr (Or.inr (Or.inr (Or.inr (Or.inr (Or.inr (Or.inr (Or.inr (Or.inr (Or.inr (Or.inr (Or.inr (Or.inr (Or.inr (Or.inr (Or.inr (Or.inr (Or.inr (Or.inr (Or.inr (Or.inr (Or.inr (Or.inr (Or.inr (Or.inr (Or.inr (Or.inr (Or.inr (Or.inr (Or.inr (Or.inl ⟨h34, (Option.some.inj h).symm⟩))))))))))))))))))))))))))))))))))
  rw [if_neg h34] at h
  by_cases h35 : key = 53
  · rw [if_pos h35] at h
    exact Or.inr (Or.inr (Or.inr (Or.inr (Or.inr (Or.inr (Or.inr (Or.inr (Or.inr (Or.inr (Or.inr (Or.inr (Or.inr (Or.inr (Or.inr (Or.inr (Or.inr (Or.inr (Or.inr (Or.inr (Or.inr (Or.inr (Or.inr (Or.inr (Or.inr (Or.inr (Or.inr (Or.inr (Or.inr (Or.inr (Or.inr (Or.inr (Or.inr (Or.inr (Or.inr (Or.inl ⟨h35, (Option.some.inj h).symm⟩)))))))))))))))))))))))))))))))))))
  rw [if_neg h35] at h
  by_cases h36 : key = 54
  · rw [if_pos h36] at h
    exact Or.inr (Or.inr (Or.inr (Or.inr (Or.inr (Or.inr (Or.inr (Or.inr (Or.inr (Or.inr (Or.inr (Or.inr (Or.inr (Or.inr (Or.inr (Or.inr (Or.inr (Or.inr (Or.inr (Or.inr (Or.inr (Or.inr (Or.inr (Or.inr (Or.inr (Or.inr (Or.inr (Or.inr (Or.inr (Or.inr (Or.inr (Or.inr (Or.inr (Or.inr (Or.inr (Or.inr (Or.inl ⟨h36, (Option.some.inj h).symm⟩))))))))))))))))))))))))))))))))))))
  rw [if_neg h36] at h
  by_cases h37 : key = 55
  · rw [if_pos h37] at h
    exact Or.inr (Or.inr (Or.inr (Or.inr (Or.inr (Or.inr (Or.inr (Or.inr (Or.inr (Or.inr (Or.inr (Or.inr (Or.inr (Or.inr (Or.inr (Or.inr (Or.inr (Or.inr (Or.inr (Or.inr (Or.inr (Or.inr (Or.inr (Or.inr (Or.inr (Or.inr (Or.inr (Or.inr (Or.inr (Or.inr (Or.inr (Or.inr (Or.inr (Or.inr (Or.inr (Or.inr (Or.inr (Or.inl ⟨h37, (Option.some.inj h).symm⟩)))))))))))))))))))))))))))))))))))))
  rw [if_neg h37] at h
  by_cases h38 : key = 56
  · rw [if_pos h38] at h
    exact Or.inr (Or.inr (Or.inr (Or.inr (Or.inr (Or.inr (Or.inr (Or.inr (Or.inr (Or.inr (Or.inr (Or.inr (Or.inr (Or.inr (Or.inr (Or.inr (Or.inr (Or.inr (Or.inr (Or.inr (Or.inr (Or.inr (Or.inr (Or.inr (Or.inr (Or.inr (Or.inr (Or.inr (Or.inr (Or.inr (Or.inr (Or.inr (Or.inr (Or.inr (Or.inr (Or.inr (Or.inr (Or.inr (Or.inl ⟨h38, (Option.some.inj h).symm⟩))))))))))))))))))))))))))))))))))))))
  rw [if_neg h38] at h
  by_cases h39 : key = 57
  · rw [if_pos h39] at h
    exact Or.inr (Or.inr (Or.inr (Or.inr (Or.inr (Or.inr (Or.inr (Or.inr (Or.inr (Or.inr (Or.inr (Or.inr (Or.inr (Or.inr (Or.inr (Or.inr (Or.inr (Or.inr (Or.inr (Or.inr (Or.inr (Or.inr (Or.inr (Or.inr (Or.inr (Or.inr (Or.inr (Or.inr (Or.inr (Or.inr (Or.inr (Or.inr (Or.inr (Or.inr (Or.inr (Or.inr (Or.inr (Or.inr (Or.inr (Or.inl ⟨h39, (Option.some.inj h).symm⟩)))))))))))))))))))))))))))))))))))))))
  rw [if_neg h39] at h
  by_cases h40 : key = 46
  · rw [if_pos h40] at h
    exact Or.inr (Or.inr (Or.inr (Or.inr (Or.inr (Or.inr (Or.inr (Or.inr (Or.inr (Or.inr (Or.inr (Or.inr (Or.inr (Or.inr (Or.inr (Or.inr (Or.inr (Or.inr (Or.inr (Or.inr (Or.inr (Or.inr (Or.inr (Or.inr (Or.inr (Or.inr (Or.inr (Or.inr (Or.inr (Or.inr (Or.inr (Or.inr (Or.inr (Or.inr (Or.inr (Or.inr (Or.inr (Or.inr (Or.inr (Or.inr (Or.inl ⟨h40, (Option.some.inj h).symm⟩))))))))))))))))))))))))))))))))))))))))
  rw [if_neg h40] at h
  by_cases h41 : key = 43
  · rw [if_pos h41] at h
    exact Or.inr (Or.inr (Or.inr (Or.inr (Or.inr (Or.inr (Or.inr (Or.inr (Or.inr (Or.inr (Or.inr (Or.inr (Or.inr (Or.inr (Or.inr (Or.inr (Or.inr (Or.inr (Or.inr (Or.inr (Or.inr (Or.inr (Or.inr (Or.inr (Or.inr (Or.inr (Or.inr (Or.inr (Or.inr (Or.inr (Or.inr (Or.inr (Or.inr (Or.inr (Or.inr (Or.inr (Or.inr (Or.inr (Or.inr (Or.inr (Or.inr (Or.inl ⟨h41, (Option.some.inj h).symm⟩)))))))))))))))))))))))))))))))))))))))))
  rw [if_neg h41] at h
  by_cases h42 : key = 35
  · rw [if_pos h42] at h
    exact Or.inr (Or.inr (Or.inr (Or.inr (Or.inr (Or.inr (Or.inr (Or.inr (Or.inr (Or.inr (Or.inr (Or.inr (Or.inr (Or.inr (Or.inr (Or.inr (Or.inr (Or.inr (Or.inr (Or.inr (Or.inr (Or.inr (Or.inr (Or.inr (Or.inr (Or.inr (Or.inr (Or.inr (Or.inr (Or.inr (Or.inr (Or.inr (Or.inr (Or.inr (Or.inr (Or.inr (Or.inr (Or.inr (Or.inr (Or.inr (Or.inr (Or.inr (Or.inl ⟨h42, (Option.some.inj h).symm⟩))))))))))))))))))))))))))))))))))))))))))
  rw [if_neg h42] at h
  by_cases h43 : key = 36
  · rw [if_pos h43] at h
    exact Or.inr (Or.inr (Or.inr (Or.inr (Or.inr (Or.inr (Or.inr (Or.inr (Or.inr (Or.inr (Or.inr (Or.inr (Or.inr (Or.inr (Or.inr (Or.inr (Or.inr (Or.inr (Or.inr (Or.inr (Or.inr (Or.inr (Or.inr (Or.inr (Or.inr (Or.inr (Or.inr (Or.inr (Or.inr (Or.inr (Or.inr (Or.inr (Or.inr (Or.inr (Or.inr (Or.inr (Or.inr (Or.inr (Or.inr (Or.inr (Or.inr (Or.inr (Or.inr (Or.inl ⟨h43, (Option.some.inj h).symm⟩)))))))))))))))))))))))))))))))))))))))))))
  rw [if_neg h43] at h
  by_cases h44 : key = 64
  · rw [if_pos h44] at h
    exact Or.inr (Or.inr (Or.inr (Or.inr (Or.inr (Or.inr (Or.inr (Or.inr (Or.inr (Or.inr (Or.inr (Or.inr (Or.inr (Or.inr (Or.inr (Or.inr (Or.inr (Or.inr (Or.inr (Or.inr (Or.inr (Or.inr (Or.inr (Or.inr (Or.inr (Or.inr (Or.inr (Or.inr (Or.inr (Or.inr (Or.inr (Or.inr (Or.inr (Or.inr (Or.inr (Or.inr (Or.inr (Or.inr (Or.inr (Or.inr (Or.inr (Or.inr (Or.inr (Or.inr (Or.inl ⟨h44, (Option.some.inj h).symm⟩))))))))))))))))))))))))))))))))))))))))))))
  rw [if_neg h44] at h
  by_cases h45 : key = 94
  · rw [if_pos h45] at h
    exact Or.inr (Or.inr (Or.inr (Or.inr (Or.inr (Or.inr (Or.inr (Or.inr (Or.inr (Or.inr (Or.inr (Or.inr (Or.inr (Or.inr (Or.inr (Or.inr (Or.inr (Or.inr (Or.inr (Or.inr (Or.inr (Or.inr (Or.inr (Or.inr (Or.inr (Or.inr (Or.inr (Or.inr (Or.inr (Or.inr (Or.inr (Or.inr (Or.inr (Or.inr (Or.inr (Or.inr (Or.inr (Or.inr (Or.inr (Or.inr (Or.inr (Or.inr (Or.inr (Or.inr (Or.inr (⟨h45, (Option.some.inj h).symm⟩)))))))))))))))))))))))))))))))))))))))))))))
  rw [if_neg h45] at h
  exact Option.noConfusion h

set_option maxHeartbeats 4000000 in
theorem metaKey_good (fl : ℕ → Bool) (key : ℕ) (hf : goodFlags fl) :
    goodFlags (metaKey fl key) := by
  unfold metaKey
  cases hkey : keyIdx key with
  | none => exact hf
  | some idx =>
  rcases keyIdx_cases key idx hkey with ⟨rfl, rfl⟩ | hrest
  · -- key 65
    show goodFlags (if fl 0 = false then Function.update (metaClear fl 65) 0 true
      else Function.update (metaOff fl 65) 0 false)
    simp only [metaClear, metaOff]
    by_cases hcur : fl 0 = false
    · rw [if_pos hcur]
      refine ⟨⟨?_, ?_, ?_⟩, digOK_congr fl _ ?_ ?_ ?_ hf.2⟩
      · simp [Function.update_apply]
      · simp [Function.update_apply]
      · simp [Function.update_apply]
      · simp [Function.update_apply]
      · simp [Function.update_apply]
      · intro j hj
        fin_cases hj <;> simp [Function.update_apply]
    · rw [if_neg hcur]
      exact goodFlags_update_false fl 0 (by decide) (by decide) hf
  rcases hrest with ⟨rfl, rfl⟩ | hrest
  · -- key 66
    show goodFlags (if fl 1 = false then Function.update (metaClear fl 66) 1 true
      else Function.update (metaOff fl 66) 1 false)
    simp only [metaClear, metaOff]
    by_cases hcur : fl 1 = false
    · rw [if_pos hcur]
      refine ⟨⟨?_, ?_, ?_⟩, digOK_congr fl _ ?_ ?_ ?_ hf.2⟩
      · simp [Function.update_apply]
      · simp [Function.update_apply]
      · simp [Function.update_apply]
      · simp [Function.update_apply]
      · simp [Function.update_apply]
      · intro j hj
        fin_cases hj <;> simp [Function.update_apply]
    · rw [if_neg hcur]
      exact goodFlags_update_false fl 1 (by decide) (by decide) hf
  rcases hrest with ⟨rfl, rfl⟩ | hrest
  · -- key 98
    show goodFlags (if fl 2 = false then Function.update (metaClear fl 98) 2 true
      else Function.update (metaOff fl 98) 2 false)
    simp only [metaClear, metaOff]
    by_cases hcur : fl 2 = false
    · rw [if_pos hcur]
      refine goodFlags_congr fl _ ?_ hf
      intro j hj
      fin_cases hj <;> simp [Function.update_apply]
    · rw [if_neg hcur]
      exact goodFlags_update_false fl 2 (by decide) (by decide) hf
  rcases hrest with ⟨rfl, rfl⟩ | hrest
  · -- key 67
    show goodFlags (if fl 3 = false then Function.update (metaClear fl 67) 3 true
      else Function.update (metaOff fl 67) 3 false)
    simp only [metaClear, metaOff]
    by_cases hcur : fl 3 = false
    · rw [if_pos hcur]
      refine ⟨⟨?_, ?_, ?_⟩, digOK_congr fl _ ?_ ?_ ?_ hf.2⟩
      · simp [Function.update_apply]
      · simp [Function.update_apply]
      · simp [Function.update_apply]
      · simp [Function.update_apply]
      · simp [Function.update_apply]
      · intro j hj
        fin_cases hj <;> simp [Function.update_apply]
    · rw [if_neg hcur]
      exact goodFlags_update_false fl 3 (by decide) (by decide) hf
  rcases hrest with ⟨rfl, rfl⟩ | hrest
  · -- key 99
    show goodFlags (if fl 4 = false then Function.update (metaClear fl 99) 4 true
      else Function.update (metaOff fl 99) 4 false)
    simp only [metaClear, metaOff]
    by_cases hcur : fl 4 = false
    · rw [if_pos hcur]
      refine goodFlags_congr fl _ ?_ hf
      intro j hj
      fin_cases hj <;> simp [Function.update_apply]
    · rw [if_neg hcur]
      exact goodFlags_update_false fl 4 (by decide) (by decide) hf
  rcases hrest with ⟨rfl, rfl⟩ | hrest
  · -- key 70
    show goodFlags (if fl 5 = false then Function.update (metaClear fl 70) 5 true
      else Function.update (metaOff fl 70) 5 false)
    simp only [metaClear, metaOff]
    by_cases hcur : fl 5 = false
    · rw [if_pos hcur]
      refine goodFlags_congr fl _ ?_ hf
      intro j hj
      fin_cases hj <;> simp [Function.update_apply]
    · rw [if_neg hcur]
      exact goodFlags_update_false fl 5 (by decide) (by decide) hf
  rcases hrest with ⟨rfl, rfl⟩ | hrest
  · -- key 71
    show goodFlags (if fl 6 = false then Function.update (metaClear fl 71) 6 true
      else Function.update (metaOff fl 71) 6 false)
    simp only [metaClear, metaOff]
    by_cases hcur : fl 6 = false
    · rw [if_pos hcur]
      refine goodFlags_congr fl _ ?_ hf
      intro j hj
      fin_cases hj <;> simp [Function.update_apply]
    · rw [if_neg hcur]
      exact goodFlags_update_false fl 6 (by decide) (by decide) hf
  rcases hrest with ⟨rfl, rfl⟩ | hrest
  · -- key 72
    show goodFlags (if fl 7 = false then Function.update (metaClear fl 72) 7 true
      else Function.update (metaOff fl 72) 7 false)
    simp only [metaClear, metaOff]
    by_cases hcur : fl 7 = false
    · rw [if_pos hcur]
      refine goodFlags_congr fl _ ?_ hf
      intro j hj
      fin_cases hj <;> simp [Function.update_apply]
    · rw [if_neg hcur]
      exact goodFlags_update_false fl 7 (by decide) (by decide) hf
  rcases hrest with ⟨rfl, rfl⟩ | hrest
  · -- key 104
    show goodFlags (if fl 8 = false then Function.update (metaClear fl 104) 8 true
      else Function.update (metaOff fl 104) 8 false)
    simp only [metaClear, metaOff]
    by_cases hcur : fl 8 = false
    · rw [if_pos hcur]
      refine goodFlags_congr fl _ ?_ hf
      intro j hj
      fin_cases hj <;> simp [Function.update_apply]
    · rw [if_neg hcur]
      exact goodFlags_update_false fl 8 (by decide) (by decide) hf
  rcases hrest with ⟨rfl, rfl⟩ | hrest
  · -- key 73
    show goodFlags (if fl 9 = false then Function.update (metaClear fl 73) 9 true
      else Function.update (metaOff fl 73) 9 false)
    simp only [metaClear, metaOff]
    by_cases hcur : fl 9 = false
    · rw [if_pos hcur]
      refine goodFlags_congr fl _ ?_ hf
      intro j hj
      fin_cases hj <;> simp [Function.update_apply]
    · rw [if_neg hcur]
      exact goodFlags_update_false fl 9 (by decide) (by decide) hf
  rcases hrest with ⟨rfl, rfl⟩ | hrest
  · -- key 105
    show goodFlags (if fl 10 = false then Function.update (metaClear fl 105) 10 true
      else Function.update (metaOff fl 105) 10 false)
    simp only [metaClear, metaOff]
    by_cases hcur : fl 10 = false
    · rw [if_pos hcur]
      refine goodFlags_congr fl _ ?_ hf
      intro j hj
      fin_cases hj <;> simp [Function.update_apply]
    · rw [if_neg hcur]
      exact goodFlags_update_false fl 10 (by decide) (by decide) hf
  rcases hrest with ⟨rfl, rfl⟩ | hrest
  · -- key 106
    show goodFlags (if fl 11 = false then Function.update (metaClear fl 106) 11 true
      else Function.update (metaOff fl 106) 11 false)
    simp only [metaClear, metaOff]
    by_cases hcur : fl 11 = false
    · rw [if_pos hcur]
      refine goodFlags_congr fl _ ?_ hf
      intro j hj
      fin_cases hj <;> simp [Function.update_apply]
    · rw [if_neg hcur]
      exact goodFlags_update_false fl 11 (by decide) (by decide) hf
  rcases hrest with ⟨rfl, rfl⟩ | hrest
  · -- key 107
    show goodFlags (if fl 12 = false then Function.update (metaClear fl 107) 12 true
      else Function.update (metaOff fl 107) 12 false)
    simp only [metaClear, metaOff]
    by_cases hcur : fl 12 = false
    · rw [if_pos hcur]
      refine goodFlags_congr fl _ ?_ hf
      intro j hj
      fin_cases hj <;> simp [Function.update_apply]
    · rw [if_neg hcur]
      exact goodFlags_update_false fl 12 (by decide) (by decide) hf
  rcases hrest with ⟨rfl, rfl⟩ | hrest
  · -- key 108
    show goodFlags (if fl 13 = false then Function.update (metaClear fl 108) 13 true
      else Function.update (metaOff fl 108) 13 false)
    simp only [metaClear, metaOff]
    by_cases hcur : fl 13 = false
    · rw [if_pos hcur]
      refine goodFlags_congr fl _ ?_ hf
      intro j hj
      fin_cases hj <;> simp [Function.update_apply]
    · rw [if_neg hcur]
      exact goodFlags_update_false fl 13 (by decide) (by decide) hf
  rcases hrest with ⟨rfl, rfl⟩ | hrest
  · -- key 110
    show goodFlags (if fl 14 = false then Function.update (metaClear fl 110) 14 true
      else Function.update (metaOff fl 110) 14 false)
    simp only [metaClear, metaOff]
    by_cases hcur : fl 14 = false
    · rw [if_pos hcur]
      refine goodFlags_congr fl _ ?_ hf
      intro j hj
      fin_cases hj <;> simp [Function.update_apply]
    · rw [if_neg hcur]
      exact goodFlags_update_false fl 14 (by decide) (by decide) hf
  rcases hrest with ⟨rfl, rfl⟩ | hrest
  · -- key 111
    show goodFlags (if fl 15 = false then Function.update (metaClear fl 111) 15 true
      else Function.update (metaOff fl 111) 15 false)
    simp only [metaClear, metaOff]
    by_cases hcur : fl 15 = false
    · rw [if_pos hcur]
      refine ⟨⟨?_, ?_, ?_⟩, digOK_congr fl _ ?_ ?_ ?_ hf.2⟩
      · simp [Function.update_apply]
      · simp [Function.update_apply]
      · simp [Function.update_apply]
      · simp [Function.update_apply]
      · simp [Function.update_apply]
      · intro j hj
        fin_cases hj <;> simp [Function.update_apply]
    · rw [if_neg hcur]
      exact goodFlags_update_false fl 15 (by decide) (by decide) hf
  rcases hrest with ⟨rfl, rfl⟩ | hrest
  · -- key 80
    show goodFlags (if fl 16 = false then Function.update (metaClear fl 80) 16 true
      else Function.update (metaOff fl 80) 16 false)
    simp only [metaClear, metaOff]
    by_cases hcur : fl 16 = false
    · rw [if_pos hcur]
      refine goodFlags_congr fl _ ?_ hf
      intro j hj
      fin_cases hj <;> simp [Function.update_apply]
    · rw [if_neg hcur]
      exact goodFlags_update_false fl 16 (by decide) (by decide) hf
  rcases hrest with ⟨rfl, rfl⟩ | hrest
  · -- key 82
    show goodFlags (if fl 17 = false then Function.update (metaClear fl 82) 17 true
      else Function.update (metaOff fl 82) 17 false)
    simp only [metaClear, metaOff]
    by_cases hcur : fl 17 = false
    · rw [if_pos hcur]
      refine ⟨abcOK_congr fl _ ?_ ?_ ?_ hf.1, ?_, ?_, ?_⟩
      · simp [clearDigits, Function.update_apply]
      · simp [clearDigits, Function.update_apply]
      · simp [clearDigits, Function.update_apply]
      · intro a ha j hj hfa hfj
        exfalso
        fin_cases ha <;> simp [clearDigits, Function.update_apply] at hfa
      · intro a ha hfa
        exfalso
        fin_cases ha <;> simp [clearDigits, Function.update_apply] at hfa
      · simp [clearDigits, Function.update_apply]
    · rw [if_neg hcur]
      refine ⟨abcOK_congr fl _ ?_ ?_ ?_ hf.1, ?_, ?_, ?_⟩
      · simp [clearDigits, Function.update_apply]
      · simp [clearDigits, Function.update_apply]
      · simp [clearDigits, Function.update_apply]
      · intro a ha j hj hfa hfj
        exfalso
        fin_cases ha <;> simp [clearDigits, Function.update_apply] at hfa
      · intro a ha hfa
        exfalso
        fin_cases ha <;> simp [clearDigits, Function.update_apply] at hfa
      · simp [clearDigits, Function.update_apply]
  rcases hrest with ⟨rfl, rfl⟩ | hrest
  · -- key 114
    show goodFlags (if fl 18 = false then Function.update (metaClear fl 114) 18 true
      else Function.update (metaOff fl 114) 18 false)
    simp only [metaClear, metaOff]
    by_cases hcur : fl 18 = false
    · rw [if_pos hcur]
      refine ⟨abcOK_congr fl _ ?_ ?_ ?_ hf.1, ?_, ?_, ?_⟩
      · simp [clearDigits, Function.update_apply]
      · simp [clearDigits, Function.update_apply]
      · simp [clearDigits, Function.update_apply]
      · intro a ha j hj hfa hfj
        exfalso
        fin_cases ha <;> simp [clearDigits, Function.update_apply] at hfa
      · intro a ha hfa
        exfalso
        fin_cases ha <;> simp [clearDigits, Function.update_apply] at hfa
      · simp [clearDigits, Function.update_apply]
    · rw [if_neg hcur]
      refine ⟨abcOK_congr fl _ ?_ ?_ ?_ hf.1, ?_, ?_, ?_⟩
      · simp [clearDigits, Function.update_apply]
      · simp [clearDigits, Function.update_apply]
      · simp [clearDigits, Function.update_apply]
      · intro a ha j hj hfa hfj
        exfalso
        fin_cases ha <;> simp [clearDigits, Function.update_apply] at hfa
      · intro a ha hfa
        exfalso
        fin_cases ha <;> simp [clearDigits, Function.update_apply] at hfa
      · simp [clearDigits, Function.update_apply]
  rcases hrest with ⟨rfl, rfl⟩ | hrest
  · -- key 84
    show goodFlags (if fl 19 = false then Function.update (metaClear fl 84) 19 true
      else Function.update (metaOff fl 84) 19 false)
    simp only [metaClear, metaOff]
    by_cases hcur : fl 19 = false
    · rw [if_pos hcur]
      refine goodFlags_congr fl _ ?_ hf
      intro j hj
      fin_cases hj <;> simp [Function.update_apply]
    · rw [if_neg hcur]
      exact goodFlags_update_false fl 19 (by decide) (by decide) hf
  rcases hrest with ⟨rfl, rfl⟩ | hrest
  · -- key 85
    show goodFlags (if fl 20 = false then Function.update (metaClear fl 85) 20 true
      else Function.update (metaOff fl 85) 20 false)
    simp only [metaClear, metaOff]
    by_cases hcur : fl 20 = false
    · rw [if_pos hcur]
      refine goodFlags_congr fl _ ?_ hf
      intro j hj
      fin_cases hj <;> simp [Function.update_apply]
    · rw [if_neg hcur]
      exact goodFlags_update_false fl 20 (by decide) (by decide) hf
  rcases hrest with ⟨rfl, rfl⟩ | hrest
  · -- key 117
    show goodFlags (if fl 21 = false then Function.update (metaClear fl 117) 21 true
      else Function.update (metaOff fl 117) 21 false)
    simp only [metaClear, metaOff]
    by_cases hcur : fl 21 = false
    · rw [if_pos hcur]
      refine goodFlags_congr fl _ ?_ hf
      intro j hj
      fin_cases hj <;> simp [Function.update_apply]
    · rw [if_neg hcur]
      exact goodFlags_update_false fl 21 (by decide) (by decide) hf
  rcases hrest with ⟨rfl, rfl⟩ | hrest
  · -- key 118
    show goodFlags (if fl 22 = false then Function.update (metaClear fl 118) 22 true
      else Function.update (metaOff fl 118) 22 false)
    simp only [metaClear, metaOff]
    by_cases hcur : fl 22 = false
    · rw [if_pos hcur]
      refine goodFlags_congr fl _ ?_ hf
      intro j hj
      fin_cases hj <;> simp [Function.update_apply]
    · rw [if_neg hcur]
      exact goodFlags_update_false fl 22 (by decide) (by decide) hf
  rcases hrest with ⟨rfl, rfl⟩ | hrest
  · -- key 87
    show goodFlags (if fl 23 = false then Function.update (metaClear fl 87) 23 true
      else Function.update (metaOff fl 87) 23 false)
    simp only [metaClear, metaOff]
    by_cases hcur : fl 23 = false
    · rw [if_pos hcur]
      refine goodFlags_congr fl _ ?_ hf
      intro j hj
      fin_cases hj <;> simp [Function.update_apply]
    · rw [if_neg hcur]
      exact goodFlags_update_false fl 23 (by decide) (by decide) hf
  rcases hrest with ⟨rfl, rfl⟩ | hrest
  · -- key 119
    show goodFlags (if fl 24 = false then Function.update (metaClear fl 119) 24 true
      else Function.update (metaOff fl 119) 24 false)
    simp only [metaClear, metaOff]
    by_cases hcur : fl 24 = false
    · rw [if_pos hcur]
      refine goodFlags_congr fl _ ?_ hf
      intro j hj
      fin_cases hj <;> simp [Function.update_apply]
    · rw [if_neg hcur]
      exact goodFlags_update_false fl 24 (by decide) (by decide) hf
  rcases hrest with ⟨rfl, rfl⟩ | hrest
  · -- key 88
    show goodFlags (if fl 25 = false then Function.update (metaClear fl 88) 25 true
      else Function.update (metaOff fl 88) 25 false)
    simp only [metaClear, metaOff]
    by_cases hcur : fl 25 = false
    · rw [if_pos hcur]
      refine goodFlags_congr fl _ ?_ hf
      intro j hj
      fin_cases hj <;> simp [Function.update_apply]
    · rw [if_neg hcur]
      exact goodFlags_update_false fl 25 (by decide) (by decide) hf
  rcases hrest with ⟨rfl, rfl⟩ | hrest
  · -- key 120
    show goodFlags (if fl 26 = false then Function.update (metaClear fl 120) 26 true
      else Function.update (metaOff fl 120) 26 false)
    simp only [metaClear, metaOff]
    by_cases hcur : fl 26 = false
    · rw [if_pos hcur]
      refine goodFlags_congr fl _ ?_ hf
      intro j hj
      fin_cases hj <;> simp [Function.update_apply]
    · rw [if_neg hcur]
      exact goodFlags_update_false fl 26 (by decide) (by decide) hf
  rcases hrest with ⟨rfl, rfl⟩ | hrest
  · -- key 89
    show goodFlags (if fl 27 = false then Function.update (metaClear fl 89) 27 true
      else Function.update (metaOff fl 89) 27 false)
    simp only [metaClear, metaOff]
    by_cases hcur : fl 27 = false
    · rw [if_pos hcur]
      refine goodFlags_congr fl _ ?_ hf
      intro j hj
      fin_cases hj <;> simp [Function.update_apply]
    · rw [if_neg hcur]
      exact goodFlags_update_false fl 27 (by decide) (by decide) hf
  rcases hrest with ⟨rfl, rfl⟩ | hrest
  · -- key 121
    show goodFlags (if fl 28 = false then Function.update (metaClear fl 121) 28 true
      else Function.update (metaOff fl 121) 28 false)
    simp only [metaClear, metaOff]
    by_cases hcur : fl 28 = false
    · rw [if_pos hcur]
      refine ⟨⟨?_, ?_, ?_⟩, digOK_congr fl _ ?_ ?_ ?_ hf.2⟩
      · simp [Function.update_apply]
      · simp [Function.update_apply]
      · simp [Function.update_apply]
      · simp [Function.update_apply]
      · simp [Function.update_apply]
      · intro j hj
        fin_cases hj <;> simp [Function.update_apply]
    · rw [if_neg hcur]
      exact goodFlags_update_false fl 28 (by decide) (by decide) hf
  rcases hrest with ⟨rfl, rfl⟩ | hrest
  · -- key 122
    show goodFlags (if fl 29 = false then Function.update (metaClear fl 122) 29 true
      else Function.update (metaOff fl 122) 29 false)
    simp only [metaClear, metaOff]
    by_cases hcur : fl 29 = false
    · rw [if_pos hcur]
      refine goodFlags_congr fl _ ?_ hf
      intro j hj
      fin_cases hj <;> simp [Function.update_apply]
    · rw [if_neg hcur]
      exact goodFlags_update_false fl 29 (by decide) (by decide) hf
  rcases hrest with ⟨rfl, rfl⟩ | hrest
  · -- key 48
    show goodFlags (if fl 30 = false then Function.update (metaClear fl 48) 30 true
      else Function.update (metaOff fl 48) 30 false)
    simp only [metaClear, metaOff]
    by_cases hcur : fl 30 = false
    · rw [if_pos hcur]
      refine goodFlags_congr fl _ ?_ hf
      intro j hj
      fin_cases hj <;> simp [Function.update_apply]
    · rw [if_neg hcur]
      exact goodFlags_update_false fl 30 (by decide) (by decide) hf
  rcases hrest with ⟨rfl, rfl⟩ | hrest
  · -- key 49
    show goodFlags (if fl 31 = false then Function.update (metaClear fl 49) 31 true
      else Function.update (metaOff fl 49) 31 false)
    simp only [metaClear, metaOff]
    by_cases hcur : fl 31 = false
    · rw [if_pos hcur]
      refine ⟨abcOK_congr fl _ ?_ ?_ ?_ hf.1, digit_on_good fl 31 (by decide) hf.2⟩
      · simp [clearDigits, Function.update_apply, ite_apply]
      · simp [clearDigits, Function.update_apply, ite_apply]
      · simp [clearDigits, Function.update_apply, ite_apply]
    · rw [if_neg hcur]
      exact goodFlags_update_false fl 31 (by decide) (by decide) hf
  rcases hrest with ⟨rfl, rfl⟩ | hrest
  · -- key 50
    show goodFlags (if fl 32 = false then Function.update (metaClear fl 50) 32 true
      else Function.update (metaOff fl 50) 32 false)
    simp only [metaClear, metaOff]
    by_cases hcur : fl 32 = false
    · rw [if_pos hcur]
      refine ⟨abcOK_congr fl _ ?_ ?_ ?_ hf.1, digit_on_good fl 32 (by decide) hf.2⟩
      · simp [clearDigits, Function.update_apply, ite_apply]
      · simp [clearDigits, Function.update_apply, ite_apply]
      · simp [clearDigits, Function.update_apply, ite_apply]
    · rw [if_neg hcur]
      exact goodFlags_update_false fl 32 (by decide) (by decide) hf
  rcases hrest with ⟨rfl, rfl⟩ | hrest
  · -- key 51
    show goodFlags (if fl 33 = false then Function.update (metaClear fl 51) 33 true
      else Function.update (metaOff fl 51) 33 false)
    simp only [metaClear, metaOff]
    by_cases hcur : fl 33 = false
    · rw [if_pos hcur]
      refine ⟨abcOK_congr fl _ ?_ ?_ ?_ hf.1, digit_on_good fl 33 (by decide) hf.2⟩
      · simp [clearDigits, Function.update_apply, ite_apply]
      · simp [clearDigits, Function.update_apply, ite_apply]
      · simp [clearDigits, Function.update_apply, ite_apply]
    · rw [if_neg hcur]
      exact goodFlags_update_false fl 33 (by decide) (by decide) hf
  rcases hrest with ⟨rfl, rfl⟩ | hrest
  · -- key 52
    show goodFlags (if fl 34 = false then Function.update (metaClear fl 52) 34 true
      else Function.update (metaOff fl 52) 34 false)
    simp only [metaClear, metaOff]
    by_cases hcur : fl 34 = false
    · rw [if_pos hcur]
      refine ⟨abcOK_congr fl _ ?_ ?_ ?_ hf.1, digit_on_good fl 34 (by decide) hf.2⟩
      · simp [clearDigits, Function.update_apply, ite_apply]
      · simp [clearDigits, Function.update_apply, ite_apply]
      · simp [clearDigits, Function.update_apply, ite_apply]
    · rw [if_neg hcur]
      exact goodFlags_update_false fl 34 (by decide) (by decide) hf
  rcases hrest with ⟨rfl, rfl⟩ | hrest
  · -- key 53
    show goodFlags (if fl 35 = false then Function.update (metaClear fl 53) 35 true
      else Function.update (metaOff fl 53) 35 false)
    simp only [metaClear, metaOff]
    by_cases hcur : fl 35 = false
    · rw [if_pos hcur]
      refine ⟨abcOK_congr fl _ ?_ ?_ ?_ hf.1, digit_on_good fl 35 (by decide) hf.2⟩
      · simp [clearDigits, Function.update_apply, ite_apply]
      · simp [clearDigits, Function.update_apply, ite_apply]
      · simp [clearDigits, Function.update_apply, ite_apply]
    · rw [if_neg hcur]
      exact goodFlags_update_false fl 35 (by decide) (by decide) hf
  rcases hrest with ⟨rfl, rfl⟩ | hrest
  · -- key 54
    show goodFlags (if fl 36 = false then Function.update (metaClear fl 54) 36 true
      else Function.update (metaOff fl 54) 36 false)
    simp only [metaClear, metaOff]
    by_cases hcur : fl 36 = false
    · rw [if_pos hcur]
      refine ⟨abcOK_congr fl _ ?_ ?_ ?_ hf.1, digit_on_good fl 36 (by decide) hf.2⟩
      · simp [clearDigits, Function.update_apply, ite_apply]
      · simp [clearDigits, Function.update_apply, ite_apply]
      · simp [clearDigits, Function.update_apply, ite_apply]
    · rw [if_neg hcur]
      exact goodFlags_update_false fl 36 (by decide) (by decide) hf
  rcases hrest with ⟨rfl, rfl⟩ | hrest
  · -- key 55
    show goodFlags (if fl 37 = false then Function.update (metaClear fl 55) 37 true
      else Function.update (metaOff fl 55) 37 false)
    simp only [metaClear, metaOff]
    by_cases hcur : fl 37 = false
    · rw [if_pos hcur]
      refine ⟨abcOK_congr fl _ ?_ ?_ ?_ hf.1, digit_on_good fl 37 (by decide) hf.2⟩
      · simp [clearDigits, Function.update_apply, ite_apply]
      · simp [clearDigits, Function.update_apply, ite_apply]
      · simp [clearDigits, Function.update_apply, ite_apply]
    · rw [if_neg hcur]
      exact goodFlags_update_false fl 37 (by decide) (by decide) hf
  rcases hrest with ⟨rfl, rfl⟩ | hrest
  · -- key 56
    show goodFlags (if fl 38 = false then Function.update (metaClear fl 56) 38 true
      else Function.update (metaOff fl 56) 38 false)
    simp only [metaClear, metaOff]
    by_cases hcur : fl 38 = false
    · rw [if_pos hcur]
      refine ⟨abcOK_congr fl _ ?_ ?_ ?_ hf.1, digit_on_good fl 38 (by decide) hf.2⟩
      · simp [clearDigits, Function.update_apply, ite_apply]
      · simp [clearDigits, Function.update_apply, ite_apply]
      · simp [clearDigits, Function.update_apply, ite_apply]
    · rw [if_neg hcur]
      exact goodFlags_update_false fl 38 (by decide) (by decide) hf
  rcases hrest with ⟨rfl, rfl⟩ | hrest
  · -- key 57
    show goodFlags (if fl 39 = false then Function.update (metaClear fl 57) 39 true
      else Function.update (metaOff fl 57) 39 false)
    simp only [metaClear, metaOff]
    by_cases hcur : fl 39 = false
    · rw [if_pos hcur]
      refine ⟨abcOK_congr fl _ ?_ ?_ ?_ hf.1, digit_on_good fl 39 (by decide) hf.2⟩
      · simp [clearDigits, Function.update_apply, ite_apply]
      · simp [clearDigits, Function.update_apply, ite_apply]
      · simp [clearDigits, Function.update_apply, ite_apply]
    · rw [if_neg hcur]
      exact goodFlags_update_false fl 39 (by decide) (by decide) hf
  rcases hrest with ⟨rfl, rfl⟩ | hrest
  · -- key 46
    show goodFlags (if fl 40 = false then Function.update (metaClear fl 46) 40 true
      else Function.update (metaOff fl 46) 40 false)
    simp only [metaClear, metaOff]
    by_cases hcur : fl 40 = false
    · rw [if_pos hcur]
      refine goodFlags_congr fl _ ?_ hf
      intro j hj
      fin_cases hj <;> simp [Function.update_apply]
    · rw [if_neg hcur]
      exact goodFlags_update_false fl 40 (by decide) (by decide) hf
  rcases hrest with ⟨rfl, rfl⟩ | hrest
  · -- key 43
    show goodFlags (if fl 41 = false then Function.update (metaClear fl 43) 41 true
      else Function.update (metaOff fl 43) 41 false)
    simp only [metaClear, metaOff]
    by_cases hcur : fl 41 = false
    · rw [if_pos hcur]
      refine goodFlags_congr fl _ ?_ hf
      intro j hj
      fin_cases hj <;> simp [Function.update_apply]
    · rw [if_neg hcur]
      exact goodFlags_update_false fl 41 (by decide) (by decide) hf
  rcases hrest with ⟨rfl, rfl⟩ | hrest
  · -- key 35
    show goodFlags (if fl 42 = false then Function.update (metaClear fl 35) 42 true
      else Function.update (metaOff fl 35) 42 false)
    simp only [metaClear, metaOff]
    by_cases hcur : fl 42 = false
    · rw [if_pos hcur]
      refine goodFlags_congr fl _ ?_ hf
      intro j hj
      fin_cases hj <;> simp [Function.update_apply]
    · rw [if_neg hcur]
      exact goodFlags_update_false fl 42 (by decide) (by decide) hf
  rcases hrest with ⟨rfl, rfl⟩ | hrest
  · -- key 36
    show goodFlags (if fl 43 = false then Function.update (metaClear fl 36) 43 true
      else Function.update (metaOff fl 36) 43 false)
    simp only [metaClear, metaOff]
    by_cases hcur : fl 43 = false
    · rw [if_pos hcur]
      refine goodFlags_congr fl _ ?_ hf
      intro j hj
      fin_cases hj <;> simp [Function.update_apply]
    · rw [if_neg hcur]
      exact goodFlags_update_false fl 43 (by decide) (by decide) hf
  rcases hrest with ⟨rfl, rfl⟩ | hrest
  · -- key 64
    show goodFlags (if fl 44 = false then Function.update (metaClear fl 64) 44 true
      else Function.update (metaOff fl 64) 44 false)
    simp only [metaClear, metaOff]
    by_cases hcur : fl 44 = false
    · rw [if_pos hcur]
      refine goodFlags_congr fl _ ?_ hf
      intro j hj
      fin_cases hj <;> simp [Function.update_apply]
    · rw [if_neg hcur]
      exact goodFlags_update_false fl 44 (by decide) (by decide) hf
  rcases hrest with ⟨rfl, rfl⟩
  · -- key 94
    show goodFlags (if fl 45 = false then Function.update (metaClear fl 94) 45 true
      else Function.update (metaOff fl 94) 45 false)
    simp only [metaClear, metaOff]
    by_cases hcur : fl 45 = false
    · rw [if_pos hcur]
      refine goodFlags_congr fl _ ?_ hf
      intro j hj
      fin_cases hj <;> simp [Function.update_apply]
    · rw [if_neg hcur]
      exact goodFlags_update_false fl 45 (by decide) (by decide) hf

/-- C8: starting from any flag table in which each exclusion group has at
most one member set and every set recursion-depth digit is accompanied by a
recursion flag, after every sequence of `Query::meta` key toggles: at most
one of the context flags `A`/`B`/`C` (indices 0, 1, 3) is set; at most one
of the depth digits `'1'..'9'` (indices 31..39) is set, and a set digit
implies `R` (17) or `r` (18) is set; and `R` and `r` are never both set. -/
theorem meta_exclusion_invariants (fl : ℕ → Bool) (keys : List ℕ)
    (hf : goodFlags fl) : goodFlags (metaRun fl keys) := by
  induction keys generalizing fl with
  | nil => exact hf
  | cons k rest ih => exact ih (metaKey fl k) (metaKey_good fl k hf)

theorem meta_exclusion_invariants_witness :
    goodFlags (fun _ => false) ∧
    goodFlags (metaRun (fun _ => false) [65, 49, 114]) :=
  ⟨by decide, meta_exclusion_invariants (fun _ => false) [65, 49, 114] (by decide)⟩

/-- C8 counterexample to the claim as stated: the state with only the
depth-digit flag `'1'` (index 31) set has at most one member set in every
exclusion group, yet after pressing `i` (a key not touching the group) the
digit flag is still set while neither recursion flag `R` (17) nor `r` (18)
is set, violating the digits-imply-recursion conclusion. -/
theorem meta_digit_without_recursion_counterexample :
    groupsAtMostOne digitOnlyState ∧
    metaRun digitOnlyState [105] 31 = true ∧
    metaRun digitOnlyState [105] 17 = false ∧
    metaRun digitOnlyState [105] 18 = false := by
  refine ⟨?_, ?_, ?_, ?_⟩ <;> decide

end Ugrep
